import Mathlib

/-!
Verification of the dynamic schema engine of the `client_service` repository.

The Lean definitions below are a shallow embedding of the Python sources:
  * `src/client_service/schemas/mongo_schemas/dynamic_document_model.py`
  * `src/client_service/services/client_schema_service.py`
  * `src/client_service/services/document_service.py`

Python dictionaries are embedded as association lists looked up at the first
matching key, Python runtime values as the inductive `Value`, MongoDB object
ids and timestamps as natural numbers, and each `async` service method as a
pure function from an explicit state to a result together with the new state.
-/

namespace ClientService

/-- Runtime values that can appear in a dynamic document: the Python value
kinds handled by the engine (str, int, float, bool, None, list, dict,
ObjectId, datetime).  Float payloads are carried as rationals: the engine
never computes with them, it only inspects their type tag and compares them.
ObjectIds and datetimes are carried as naturals. -/
inductive Value where
  | vStr (s : String)
  | vInt (n : Int)
  | vFloat (q : Rat)
  | vBool (b : Bool)
  | vNone
  | vList (elems : List Value)
  | vDict (entries : List (String × Value))
  | vObjectId (oid : Nat)
  | vDateTime (t : Nat)

mutual

/-- Structural equality of runtime values, standing in for Python `==` (the
engine compares values only inside `allowed_values` membership tests and
query filters). -/
def Value.beq : Value → Value → Bool
  | .vStr a, .vStr b => a == b
  | .vInt a, .vInt b => a == b
  | .vFloat a, .vFloat b => a == b
  | .vBool a, .vBool b => a == b
  | .vNone, .vNone => true
  | .vList a, .vList b => Value.beqList a b
  | .vDict a, .vDict b => Value.beqDict a b
  | .vObjectId a, .vObjectId b => a == b
  | .vDateTime a, .vDateTime b => a == b
  | _, _ => false

/-- Pointwise equality of value lists. -/
def Value.beqList : List Value → List Value → Bool
  | [], [] => true
  | a :: as, b :: bs => Value.beq a b && Value.beqList as bs
  | _, _ => false

/-- Pointwise equality of dict entry lists. -/
def Value.beqDict : List (String × Value) → List (String × Value) → Bool
  | [], [] => true
  | (ka, va) :: as, (kb, vb) :: bs => ka == kb && Value.beq va vb && Value.beqDict as bs
  | _, _ => false

end

instance : BEq Value := ⟨Value.beq⟩

/-- A Python dict, embedded as an association list; lookups take the first
binding of a key (Python dicts hold each key at most once). -/
abbrev PyDict := List (String × Value)

/-- Lookup of `d[k]` / `d.get(k)`: first binding of the key, if any. -/
def pyGet (d : PyDict) (k : String) : Option Value :=
  (d.find? (fun kv => kv.1 == k)).map (fun kv => kv.2)

/-- Python truthiness (`if value:`) of an embedded runtime value. -/
def pyTruthy : Value → Bool
  | .vStr s => s != ""
  | .vInt n => n != 0
  | .vFloat q => q != 0
  | .vBool b => b
  | .vNone => false
  | .vList elems => !elems.isEmpty
  | .vDict entries => !entries.isEmpty
  | .vObjectId _ => true
  | .vDateTime _ => true

/-- Python `str(value)`.  Scalar renderings follow Python; the renderings of
containers, ObjectIds and datetimes are abbreviated (the theorems below never
depend on the exact text, only on the call structure around it). -/
def pyStr : Value → String
  | .vStr s => s
  | .vInt n => toString n
  | .vFloat q => toString q
  | .vBool b => if b then "True" else "False"
  | .vNone => "None"
  | .vList _ => "[...]"
  | .vDict _ => "{...}"
  | .vObjectId oid => toString oid
  | .vDateTime t => toString t

/-- Python dict merge `{**base, **data}`: keys of `base` keep their position
but take the value from `data` when `data` also binds them; keys only in
`data` follow.  Lookups in the result thus prefer `data`. -/
def pyUpdate (base data : PyDict) : PyDict :=
  base.map (fun kv => (kv.1, ((pyGet data kv.1).getD kv.2)))
    ++ data.filter (fun kv => (pyGet base kv.1).isNone)

/-- Value of an optional actor id, as stored by the engine (`None` or str). -/
def optStr : Option String → Value
  | some s => .vStr s
  | none => .vNone

/-- Embeds `prepare_document_for_insert` of `dynamic_document_model.py`:
builds `{"client_id": ..., "created_at": now, "updated_at": now,
"created_by": ..., "updated_by": ..., **data}` — the user data is spread
last, after the base fields. -/
def prepare_document_for_insert (data : PyDict) (client_id : String)
    (created_by updated_by : Option String) (now : Nat) : PyDict :=
  pyUpdate
    [("client_id", .vStr client_id),
     ("created_at", .vDateTime now),
     ("updated_at", .vDateTime now),
     ("created_by", optStr created_by),
     ("updated_by", optStr updated_by)]
    data

/-- Embeds `prepare_document_for_update`: the `$set` payload
`{**data, "updated_at": now, "updated_by": updated_by}` — here the system
fields are spread last and win over the user data. -/
def prepare_document_for_update (data : PyDict) (updated_by : Option String)
    (now : Nat) : PyDict :=
  pyUpdate data [("updated_at", .vDateTime now), ("updated_by", optStr updated_by)]

/-- Serialization of a single stored value for API output, as in
`serialize_document`: ObjectIds and datetimes become strings, everything else
is returned unchanged. -/
def serializeValue : Value → Value
  | .vObjectId oid => .vStr (toString oid)
  | .vDateTime t => .vStr (toString t)
  | v => v

/-- Embeds `serialize_document`: every top-level ObjectId or datetime value
(including `_id`) is stringified; keys are untouched. -/
def serialize_document (doc : PyDict) : PyDict :=
  doc.map (fun kv => (kv.1, serializeValue kv.2))

section PyDictLemmas

theorem pyGet_nil (k : String) : pyGet [] k = none := rfl

theorem pyGet_cons (k' : String) (v : Value) (d : PyDict) (k : String) :
    pyGet ((k', v) :: d) k = if k' == k then some v else pyGet d k := by
  by_cases h : k' == k <;> simp [pyGet, List.find?, h]

theorem pyGet_append (d₁ d₂ : PyDict) (k : String) :
    pyGet (d₁ ++ d₂) k = (pyGet d₁ k).orElse (fun _ => pyGet d₂ k) := by
  induction d₁ with
  | nil => simp [pyGet]
  | cons kv d ih =>
      rcases kv with ⟨k', v⟩
      by_cases h : k' == k <;> simp [pyGet_cons, h, ih]

theorem pyGet_mapBase (b d : PyDict) (k : String) :
    pyGet (b.map (fun kv => (kv.1, ((pyGet d kv.1).getD kv.2)))) k =
      (pyGet b k).map (fun v => (pyGet d k).getD v) := by
  induction b with
  | nil => simp [pyGet]
  | cons kv b ih =>
      rcases kv with ⟨k', v⟩
      by_cases h : k' == k
      · have hk : k' = k := eq_of_beq h
        subst hk
        simp [pyGet_cons, ih]
      · simp [pyGet_cons, h, ih]

theorem pyGet_filterNew (b d : PyDict) (k : String) :
    pyGet (d.filter (fun kv => (pyGet b kv.1).isNone)) k =
      if (pyGet b k).isNone then pyGet d k else none := by
  induction d with
  | nil => simp [pyGet]
  | cons kv d ih =>
      rcases kv with ⟨k', v⟩
      by_cases h : k' == k
      · have hk : k' = k := eq_of_beq h
        subst hk
        by_cases hb : (pyGet b k').isNone
        · simp [List.filter, hb, pyGet_cons, ih]
        · simp [List.filter, hb, ih]
      · by_cases hb : (pyGet b k').isNone
        · simp [List.filter, hb, pyGet_cons, h, ih]
        · simp [List.filter, hb, pyGet_cons, h, ih]

/-- Lookup in a Python dict merge: the second dict wins, otherwise the first
answers. -/
theorem pyGet_pyUpdate (base data : PyDict) (k : String) :
    pyGet (pyUpdate base data) k =
      match pyGet data k with
      | some v => some v
      | none => pyGet base k := by
  unfold pyUpdate
  rw [pyGet_append, pyGet_mapBase, pyGet_filterNew]
  cases hd : pyGet data k <;> cases hb : pyGet base k <;>
    simp [hd, hb, Option.orElse]

end PyDictLemmas

/-- Modelled from the spec: §3 FieldDefinition (the Beanie/pydantic models
in `client_schema_model.py` and `pydantic_schemas` are referenced by the
services but their file is not under `src/`).  A declared, typed, optionally
required / unique / enumerated attribute of a schema version; defaults are
the spec's (`required` and `unique` default to false, everything else is
optional). -/
structure SchemaField where
  name : String
  type : String
  required : Bool := false
  unique : Bool := false
  default : Option Value := none
  allowed_values : Option (List Value) := none
  ref_schema : Option String := none
  description : Option String := none

/-- Modelled from the spec: §3 SchemaDefinition, one stored document per
schema version (`ClientSchema` in the absent `client_schema_model.py`).
Store-assigned ids and UTC timestamps are embedded as naturals. -/
structure ClientSchema where
  id : Nat
  client_id : String
  schema_name : String
  version : Int
  is_active : Bool
  description : Option String := none
  fields : List SchemaField := []
  created_by : Option String := none
  updated_by : Option String := none
  created_at : Nat := 0
  updated_at : Nat := 0

/-- Modelled from the spec: the create-call payload (`ClientSchemaCreate` of
the absent `pydantic_schemas` module): tenant id, document type, optional
explicit version (a positive integer per §3), requested activation flag,
optional description and actor, and the field list. -/
structure ClientSchemaCreate where
  client_id : String
  schema_name : String
  version : Option Int := none
  is_active : Bool := false
  description : Option String := none
  fields : List SchemaField := []
  created_by : Option String := none

/-- Modelled from the spec: the partial-update payload (`ClientSchemaUpdate`
of the absent `pydantic_schemas` module): every member optional. -/
structure ClientSchemaUpdate where
  description : Option String := none
  fields : Option (List SchemaField) := none
  is_active : Option Bool := none
  updated_by : Option String := none

/-- Error kinds surfaced by the services, one per HTTP status used by the
sources (`StatusCode` constants live in `api/constants`, absent from `src/`;
kinds per spec §7). -/
inductive ServiceError where
  | badRequest
  | notFound
  | conflict
  | unprocessable
  deriving Repr, DecidableEq

/-- The schema-registry store: the stored `ClientSchema` documents, the next
store-assigned id, and a logical clock supplying `datetime.now()` values. -/
structure RegistryState where
  schemas : List ClientSchema
  nextId : Nat
  clock : Nat

/-- The empty registry. -/
def RegistryState.init : RegistryState := ⟨[], 0, 0⟩

/-- Advance the logical clock at the start of an operation; every
`datetime.now()` of that operation reads the new value. -/
def tick (st : RegistryState) : RegistryState := { st with clock := st.clock + 1 }

/-- The query `ClientSchema.find(client_id == c, schema_name == s)`: all
stored versions of one (tenant, document-type) pair.  The service sorts the
result by descending version; the sort affects only iteration order, never
the outcome of the operations modelled here, and is omitted. -/
def findPair (st : RegistryState) (c s : String) : List ClientSchema :=
  st.schemas.filter (fun r => r.client_id == c && r.schema_name == s)

/-- Python `max([s.version for s in existing], default=0)`: 0 on an empty
list, otherwise the maximum of the versions. -/
def maxVersion (existing : List ClientSchema) : Int :=
  match existing.map (fun r => r.version) with
  | [] => 0
  | v :: vs => vs.foldl max v

/-- The deactivate-others loop of `ClientSchemaService.create`: every stored
active version of the (tenant, document-type) pair gets `is_active = False`
and a bumped `updated_at`, and is saved. -/
def deactivatePair (st : RegistryState) (c s : String) : RegistryState :=
  { st with schemas := st.schemas.map (fun r =>
      if r.client_id == c && r.schema_name == s && r.is_active then
        { r with is_active := false, updated_at := st.clock }
      else r) }

/-- Python truthiness of the optional `version` member (`if
schema_item.version:`): an explicit 0 counts as absent. -/
def versionTruthy : Option Int → Bool
  | some v => v != 0
  | none => false

/-- Version determination of `ClientSchemaService.create`: a truthy explicit
version is rejected with Conflict when some stored version of the pair equals
it; otherwise the version is `max(existing) + 1`. -/
def versionFor (item : ClientSchemaCreate) (existing : List ClientSchema) :
    Except ServiceError Int :=
  match item.version with
  | some v =>
      if v != 0 then
        if existing.any (fun r => r.version == v) then .error .conflict
        else .ok v
      else .ok (maxVersion existing + 1)
  | none => .ok (maxVersion existing + 1)

/-- The new `ClientSchema` document built for one batch item (before the
store assigns its id at insert time). -/
def mkSchema (item : ClientSchemaCreate) (version : Int) (now : Nat) :
    ClientSchema :=
  { id := 0
    client_id := item.client_id
    schema_name := item.schema_name
    version := version
    is_active := item.is_active
    description := item.description
    fields := item.fields
    created_by := item.created_by
    updated_by := item.created_by
    created_at := now
    updated_at := now }

/-- Phase 6 of `ClientSchemaService.create`: each batch item in turn reads
the existing versions of its pair, determines a version (Conflict aborts the
call, after earlier items' deactivations were already saved), deactivates the
pair's active versions when the item requests activation, and queues the new
document.  Returns the store state, the queued documents and the error. -/
def prepLoop : RegistryState → List ClientSchema → List ClientSchemaCreate →
    RegistryState × List ClientSchema × Option ServiceError
  | st, acc, [] => (st, acc, none)
  | st, acc, item :: rest =>
      match versionFor item (findPair st item.client_id item.schema_name) with
      | .error e => (st, acc, some e)
      | .ok version =>
          let st' := if item.is_active then
              deactivatePair st item.client_id item.schema_name
            else st
          prepLoop st' (acc ++ [mkSchema item version st.clock]) rest

/-- The commit phase of `ClientSchemaService.create`: insert every queued
document, each receiving the next store-assigned id. -/
def commitInserts (st : RegistryState) (acc : List ClientSchema) : RegistryState :=
  acc.foldl (fun s r =>
    { s with schemas := s.schemas ++ [{ r with id := s.nextId }],
             nextId := s.nextId + 1 }) st

/-- Embeds `ClientSchemaService.create` (batch).  `uuidOk` stands for Python
`UUID(client_id)` succeeding.  The Phase 4 existence check against the
relational store is commented out in the source and therefore absent here.
The batch duplicate check of Phase 5 rejects two items with the same
(tenant, document-type) pair.  Errors raised inside Phase 6 keep the
deactivations already saved but insert nothing. -/
def ClientSchemaService.create (uuidOk : String → Bool)
    (schema_data : List ClientSchemaCreate) (st : RegistryState) :
    RegistryState × Option ServiceError :=
  if schema_data.isEmpty then (st, some .badRequest)
  else if schema_data.any (fun item => !uuidOk item.client_id) then
    (st, some .badRequest)
  else if ¬ (schema_data.map (fun item => (item.client_id, item.schema_name))).Nodup
  then (st, some .conflict)
  else
    let st := tick st
    match prepLoop st [] schema_data with
    | (st', _, some e) => (st', some e)
    | (st', acc, none) => (commitInserts st' acc, none)

/-- The deactivate-siblings loop shared by `activate_version` and `update`:
every other stored version of the same pair that is active gets
`is_active = False` and a bumped `updated_at`. -/
def deactivateOthers (st : RegistryState) (schema : ClientSchema) : RegistryState :=
  { st with schemas := st.schemas.map (fun r =>
      if r.id != schema.id && r.client_id == schema.client_id &&
          r.schema_name == schema.schema_name && r.is_active then
        { r with is_active := false, updated_at := st.clock }
      else r) }

/-- Embeds `ClientSchemaService.activate_version`: fetch by id, deactivate
every sibling, then save this version with `is_active = True`. -/
def ClientSchemaService.activate_version (schema_id : Nat) (st : RegistryState) :
    RegistryState × Option ServiceError :=
  let st := tick st
  match st.schemas.find? (fun r => r.id == schema_id) with
  | none => (st, some .notFound)
  | some schema =>
      let st' := deactivateOthers st schema
      ({ st' with schemas := st'.schemas.map (fun r =>
          if r.id == schema_id then
            { r with is_active := true, updated_at := st'.clock }
          else r) }, none)

/-- The in-place mutation of the fetched schema object performed by
`ClientSchemaService.update` before the final save: replace description and
fields when supplied, apply the `is_active` toggle when it differs from the
current flag, set `updated_by` when truthy, bump `updated_at`. -/
def applyPatch (schema : ClientSchema) (schema_data : ClientSchemaUpdate)
    (now : Nat) : ClientSchema :=
  let s1 := { schema with
    description := match schema_data.description with
      | some d => some d
      | none => schema.description,
    fields := schema_data.fields.getD schema.fields }
  let toggled := match schema_data.is_active with
    | some b => b != schema.is_active
    | none => false
  let s2 := if toggled then { s1 with is_active := schema_data.is_active.getD s1.is_active }
    else s1
  { s2 with
    updated_by := match schema_data.updated_by with
      | some u => if u != "" then some u else s2.updated_by
      | none => s2.updated_by,
    updated_at := now }

/-- Embeds `ClientSchemaService.update`: fetch by id, apply the partial
update (`applyPatch`); toggling `is_active` on deactivates every sibling
first; then save. -/
def ClientSchemaService.update (schema_id : Nat) (schema_data : ClientSchemaUpdate)
    (st : RegistryState) : RegistryState × Option ServiceError :=
  let st := tick st
  match st.schemas.find? (fun r => r.id == schema_id) with
  | none => (st, some .notFound)
  | some schema =>
      let st' := match schema_data.is_active with
        | some b => if b != schema.is_active && b then deactivateOthers st schema else st
        | none => st
      let s3 := applyPatch schema schema_data st'.clock
      ({ st' with schemas := st'.schemas.map (fun r =>
          if r.id == schema_id then s3 else r) }, none)

/-- Embeds `ClientSchemaService.delete`: fetch by id, hard delete. -/
def ClientSchemaService.delete (schema_id : Nat) (st : RegistryState) :
    RegistryState × Option ServiceError :=
  let st := tick st
  match st.schemas.find? (fun r => r.id == schema_id) with
  | none => (st, some .notFound)
  | some _ =>
      ({ st with schemas := st.schemas.filter (fun r => r.id != schema_id) }, none)

/-- Embeds `ClientSchemaService.get_active_schema`: the first stored version
with this tenant id and document type that is active. -/
def ClientSchemaService.get_active_schema (client_id schema_name : String)
    (st : RegistryState) : Option ClientSchema :=
  st.schemas.find? (fun r =>
    r.client_id == client_id && r.schema_name == schema_name && r.is_active)

/-- Embeds `DocumentService._get_active_schema`: the filter used by every
document operation.  Note that, unlike `ClientSchemaService.get_active_schema`,
it matches on `schema_name` and `is_active` only — the `client_id` argument
is used in the error message but not in the query. -/
def DocumentService.getActiveSchema (client_id schema_name : String)
    (st : RegistryState) : Option ClientSchema :=
  let _ := client_id
  st.schemas.find? (fun r => r.schema_name == schema_name && r.is_active)

/-- One schema-registry call, as named by the spec's §8 single-active-version
property: create, activate or update (delete is included for good measure;
it only removes documents). -/
inductive RegistryOp where
  | createOp (schema_data : List ClientSchemaCreate)
  | activateOp (schema_id : Nat)
  | updateOp (schema_id : Nat) (schema_data : ClientSchemaUpdate)
  | deleteOp (schema_id : Nat)

/-- Run one registry call to completion and keep the resulting store state
(errors surface to the caller; the store keeps whatever the call saved). -/
def applyOp (uuidOk : String → Bool) : RegistryOp → RegistryState → RegistryState
  | .createOp items, st => (ClientSchemaService.create uuidOk items st).1
  | .activateOp i, st => (ClientSchemaService.activate_version i st).1
  | .updateOp i p, st => (ClientSchemaService.update i p st).1
  | .deleteOp i, st => (ClientSchemaService.delete i st).1

/-- Run a sequence of registry calls sequentially to completion. -/
def runOps (uuidOk : String → Bool) (ops : List RegistryOp) (st : RegistryState) :
    RegistryState :=
  ops.foldl (fun s op => applyOp uuidOk op s) st

/-- The stored versions of the pair `(c, s)` that are active. -/
def activePred (c s : String) (r : ClientSchema) : Bool :=
  r.client_id == c && r.schema_name == s && r.is_active

/-- Number of stored `SchemaDefinition`s of the pair `(c, s)` with
`is_active = true`. -/
def activeCount (st : RegistryState) (c s : String) : Nat :=
  st.schemas.countP (activePred c s)

/-- The single-active-version invariant of spec §8. -/
def SingleActive (st : RegistryState) : Prop :=
  ∀ c s, activeCount st c s ≤ 1

/-- Store sanity: store-assigned ids are pairwise distinct and below the
next-id counter. -/
def IdsOk (st : RegistryState) : Prop :=
  (st.schemas.map (fun r => r.id)).Nodup ∧ ∀ r ∈ st.schemas, r.id < st.nextId

/-- The (tenant, document-type) pair of a stored schema. -/
def pairOf (r : ClientSchema) : String × String := (r.client_id, r.schema_name)

/-- The (tenant, document-type) pair of a create-call item. -/
def pairOfItem (item : ClientSchemaCreate) : String × String :=
  (item.client_id, item.schema_name)

section CountingLemmas

theorem countP_eq_zero_of_all {α : Type} (p : α → Bool) (l : List α)
    (h : ∀ a ∈ l, p a = false) : l.countP p = 0 := by
  induction l with
  | nil => rfl
  | cons a t ih =>
      rw [List.countP_cons, h a (List.mem_cons_self a t),
        ih (fun x hx => h x (List.mem_cons_of_mem a hx))]
      simp

theorem countP_map_congr {α : Type} (p : α → Bool) (g : α → α) (l : List α)
    (h : ∀ a ∈ l, p (g a) = p a) : (l.map g).countP p = l.countP p := by
  induction l with
  | nil => rfl
  | cons a t ih =>
      simp only [List.map_cons, List.countP_cons]
      rw [h a (List.mem_cons_self a t),
        ih (fun x hx => h x (List.mem_cons_of_mem a hx))]

theorem countP_map_mono {α : Type} (p : α → Bool) (g : α → α) (l : List α)
    (h : ∀ a ∈ l, p (g a) = true → p a = true) :
    (l.map g).countP p ≤ l.countP p := by
  induction l with
  | nil => exact Nat.le_refl _
  | cons a t ih =>
      rw [List.map_cons, List.countP_cons, List.countP_cons]
      have ht := ih (fun x hx hp => h x (List.mem_cons_of_mem a hx) hp)
      have ha := h a (List.mem_cons_self a t)
      have hone : (if p (g a) = true then 1 else 0) ≤ (if p a = true then 1 else 0) := by
        cases hg : p (g a)
        · simp
        · simp [hg, ha hg]
      exact Nat.add_le_add ht hone

theorem countP_le_one_of_nodup_ids (l : List ClientSchema) (i : Nat)
    (h : (l.map (fun r => r.id)).Nodup) :
    l.countP (fun r => r.id == i) ≤ 1 := by
  induction l with
  | nil => exact Nat.zero_le 1
  | cons a t ih =>
      simp only [List.map_cons, List.nodup_cons] at h
      rw [List.countP_cons]
      by_cases ha : a.id = i
      · have hzero : t.countP (fun r => r.id == i) = 0 := by
          apply countP_eq_zero_of_all
          intro x hx
          have hxi : x.id ≠ i := by
            intro hxi
            exact h.1 (by rw [ha, ← hxi]; exact List.mem_map_of_mem (fun r => r.id) hx)
          simpa using hxi
        have hb : (a.id == i) = true := beq_iff_eq.mpr ha
        rw [hzero, hb]
        simp
      · have hb : (a.id == i) = false := by
          cases hbb : (a.id == i)
          · rfl
          · exact absurd (eq_of_beq hbb) ha
        rw [hb]
        simpa using ih h.2

theorem mem_unique_of_nodup_ids (l : List ClientSchema)
    (h : (l.map (fun r => r.id)).Nodup) {a b : ClientSchema}
    (ha : a ∈ l) (hb : b ∈ l) (hid : a.id = b.id) : a = b := by
  induction l with
  | nil => cases ha
  | cons x t ih =>
      simp only [List.map_cons, List.nodup_cons] at h
      rcases List.mem_cons.mp ha with rfl | ha1
      · rcases List.mem_cons.mp hb with rfl | hb1
        · rfl
        · exact absurd (by rw [hid]; exact List.mem_map_of_mem (fun r => r.id) hb1) h.1
      · rcases List.mem_cons.mp hb with rfl | hb1
        · exact absurd (by rw [← hid]; exact List.mem_map_of_mem (fun r => r.id) ha1) h.1
        · exact ih h.2 ha1 hb1

end CountingLemmas

section RegistryInvariant

theorem bool_eq_false {b : Bool} (h : ¬ b = true) : b = false := by
  cases b
  · rfl
  · exact absurd rfl h

theorem activeCount_tick (st : RegistryState) (c s : String) :
    activeCount (tick st) c s = activeCount st c s := rfl

theorem activeCount_deactivatePair_self (st : RegistryState) (c s : String) :
    activeCount (deactivatePair st c s) c s = 0 := by
  unfold activeCount deactivatePair
  apply countP_eq_zero_of_all
  intro x hx
  rcases List.mem_map.mp hx with ⟨a, ha, rfl⟩
  by_cases hcond : (a.client_id == c && a.schema_name == s && a.is_active) = true
  · rw [if_pos hcond]
    simp [activePred]
  · rw [if_neg hcond]
    simpa [activePred] using bool_eq_false hcond

theorem activeCount_deactivatePair_other (st : RegistryState) (c s c' s' : String)
    (h : c' ≠ c ∨ s' ≠ s) :
    activeCount (deactivatePair st c s) c' s' = activeCount st c' s' := by
  unfold activeCount deactivatePair
  apply countP_map_congr
  intro a ha
  by_cases hcond : (a.client_id == c && a.schema_name == s && a.is_active) = true
  · rw [if_pos hcond]
    simp only [Bool.and_eq_true, beq_iff_eq] at hcond
    rcases h with h | h
    · have hc : (a.client_id == c') = false := by
        rw [hcond.1.1]
        exact beq_eq_false_iff_ne.mpr (Ne.symm h)
      simp [activePred, hc]
    · have hs : (a.schema_name == s') = false := by
        rw [hcond.1.2]
        exact beq_eq_false_iff_ne.mpr (Ne.symm h)
      simp [activePred, hs]
  · rw [if_neg hcond]

theorem commitInserts_cons (st : RegistryState) (r : ClientSchema)
    (t : List ClientSchema) :
    commitInserts st (r :: t) =
      commitInserts
        { st with schemas := st.schemas ++ [{ r with id := st.nextId }],
                  nextId := st.nextId + 1 } t := rfl

theorem activeCount_commitInserts (acc : List ClientSchema) (st : RegistryState)
    (c s : String) :
    activeCount (commitInserts st acc) c s =
      activeCount st c s + acc.countP (activePred c s) := by
  induction acc generalizing st with
  | nil => simp [commitInserts, activeCount]
  | cons r t ih =>
      rw [commitInserts_cons, ih]
      have hr : activePred c s { r with id := st.nextId } = activePred c s r := rfl
      show activeCount _ c s + _ = _
      unfold activeCount
      simp only [List.countP_append, List.countP_cons, List.countP_nil, hr]
      omega

theorem pairOf_mkSchema (item : ClientSchemaCreate) (version : Int) (now : Nat) :
    pairOf (mkSchema item version now) = pairOfItem item := rfl

/-- Invariant of the Phase 6 loop of `ClientSchemaService.create`: while the
queued batch items cover pairwise-distinct (tenant, document-type) pairs
disjoint from the remaining items' pairs, each pair has at most one active
version counting both the store and the queue. -/
theorem prepLoop_activeCount (items : List ClientSchemaCreate)
    (st : RegistryState) (acc : List ClientSchema)
    (hpairs : (acc.map pairOf ++ items.map pairOfItem).Nodup)
    (hcount : ∀ c s, activeCount st c s + acc.countP (activePred c s) ≤ 1) :
    ∀ c s, activeCount (prepLoop st acc items).1 c s
        + (prepLoop st acc items).2.1.countP (activePred c s) ≤ 1 := by
  induction items generalizing st acc with
  | nil => simpa [prepLoop] using hcount
  | cons item rest ih =>
      intro c s
      unfold prepLoop
      cases hv : versionFor item (findPair st item.client_id item.schema_name) with
      | error e => exact hcount c s
      | ok version =>
          simp only
          apply ih
          · have : ((acc ++ [mkSchema item version st.clock]).map pairOf
                ++ rest.map pairOfItem)
                = (acc.map pairOf ++ (item :: rest).map pairOfItem) := by
              simp [pairOf_mkSchema]
            rw [this]
            exact hpairs
          · intro c' s'
            rw [List.countP_append, List.countP_cons, List.countP_nil]
            have hd := (List.nodup_append.mp hpairs).2.2
            by_cases hpair : item.client_id = c' ∧ item.schema_name = s'
            · have hacc : acc.countP (activePred c' s') = 0 := by
                apply countP_eq_zero_of_all
                intro a ha
                have hne : pairOf a ≠ pairOfItem item := by
                  intro he
                  exact hd (List.mem_map_of_mem pairOf ha)
                    (he ▸ List.mem_map_of_mem pairOfItem (List.mem_cons_self item rest))
                apply bool_eq_false
                intro hp
                simp only [activePred, Bool.and_eq_true, beq_iff_eq] at hp
                exact hne (by
                  simp [pairOf, pairOfItem, hp.1.1, hp.1.2, hpair.1, hpair.2])
              obtain ⟨h1, h2⟩ := hpair
              subst h1
              subst h2
              cases hact : item.is_active
              · rw [if_neg (by simp [hact])]
                have hmk : activePred item.client_id item.schema_name
                    (mkSchema item version st.clock) = false := by
                  simp [activePred, mkSchema, hact]
                have := hcount item.client_id item.schema_name
                rw [hacc] at this
                rw [hmk, hacc]
                simpa using this
              · rw [if_pos (by simp [hact])]
                have hz := activeCount_deactivatePair_self st item.client_id
                  item.schema_name
                have hmk : activePred item.client_id item.schema_name
                    (mkSchema item version st.clock) = true := by
                  simp [activePred, mkSchema, hact]
                rw [hmk, hacc, hz]
                simp
            · have hmk : activePred c' s' (mkSchema item version st.clock) = false := by
                apply bool_eq_false
                intro hp
                simp only [activePred, mkSchema, Bool.and_eq_true, beq_iff_eq] at hp
                exact hpair ⟨hp.1.1, hp.1.2⟩
              cases hact : item.is_active
              · rw [if_neg (by simp [hact]), hmk]
                have := hcount c' s'
                simpa using this
              · rw [if_pos (by simp [hact])]
                have hor : c' ≠ item.client_id ∨ s' ≠ item.schema_name := by
                  by_cases h1 : item.client_id = c'
                  · right
                    intro he
                    exact hpair ⟨h1, he.symm⟩
                  · left
                    intro he
                    exact h1 he.symm
                rw [activeCount_deactivatePair_other st item.client_id
                  item.schema_name c' s' hor, hmk]
                have := hcount c' s'
                simpa using this

theorem countP_le_countP {α : Type} (p q : α → Bool) (l : List α)
    (h : ∀ a ∈ l, p a = true → q a = true) : l.countP p ≤ l.countP q := by
  induction l with
  | nil => exact Nat.le_refl _
  | cons a t ih =>
      rw [List.countP_cons, List.countP_cons]
      have ht := ih (fun x hx hp => h x (List.mem_cons_of_mem a hx) hp)
      have ha := h a (List.mem_cons_self a t)
      have hone : (if p a = true then 1 else 0) ≤ (if q a = true then 1 else 0) := by
        cases hp : p a
        · simp
        · simp [hp, ha hp]
      exact Nat.add_le_add ht hone

theorem map_id_comp (g : ClientSchema → ClientSchema)
    (hg : ∀ a, (g a).id = a.id) (l : List ClientSchema) :
    (l.map g).map (fun r => r.id) = l.map (fun r => r.id) := by
  induction l with
  | nil => rfl
  | cons a t ih => simp [hg, ih]

theorem IdsOk_of_ids_eq (st st' : RegistryState) (h : IdsOk st)
    (hmap : st'.schemas.map (fun r => r.id) = st.schemas.map (fun r => r.id))
    (hn : st'.nextId = st.nextId) : IdsOk st' := by
  constructor
  · rw [hmap]
    exact h.1
  · intro r hr
    have hmem : r.id ∈ st.schemas.map (fun x => x.id) := by
      rw [← hmap]
      exact List.mem_map_of_mem (fun x => x.id) hr
    rcases List.mem_map.mp hmem with ⟨a, ha, hid⟩
    rw [hn, ← hid]
    exact h.2 a ha

theorem commitInserts_preserves_idsOk (acc : List ClientSchema)
    (st : RegistryState) (h : IdsOk st) : IdsOk (commitInserts st acc) := by
  induction acc generalizing st with
  | nil => exact h
  | cons r t ih =>
      rw [commitInserts_cons]
      apply ih
      constructor
      · rw [List.map_append]
        apply List.nodup_append.mpr
        refine ⟨h.1, List.nodup_singleton _, ?_⟩
        intro x hx
        rcases List.mem_map.mp hx with ⟨a, ha, rfl⟩
        have := h.2 a ha
        simp only [List.map_cons, List.map_nil, List.mem_singleton]
        omega
      · intro x hx
        rcases List.mem_append.mp hx with hx | hx
        · exact Nat.lt_succ_of_lt (h.2 x hx)
        · rcases List.mem_singleton.mp hx with rfl
          exact Nat.lt_succ_self _

theorem deactivatePair_ids (st : RegistryState) (c s : String) :
    (deactivatePair st c s).schemas.map (fun r => r.id) =
      st.schemas.map (fun r => r.id) := by
  apply map_id_comp
  intro a
  by_cases hcond : (a.client_id == c && a.schema_name == s && a.is_active) = true
  · rw [if_pos hcond]
  · rw [if_neg hcond]

theorem prepLoop_ids (items : List ClientSchemaCreate) (st : RegistryState)
    (acc : List ClientSchema) :
    (prepLoop st acc items).1.schemas.map (fun r => r.id) =
        st.schemas.map (fun r => r.id) ∧
      (prepLoop st acc items).1.nextId = st.nextId := by
  induction items generalizing st acc with
  | nil => exact ⟨rfl, rfl⟩
  | cons item rest ih =>
      unfold prepLoop
      cases hv : versionFor item (findPair st item.client_id item.schema_name) with
      | error e => exact ⟨rfl, rfl⟩
      | ok version =>
          simp only
          cases hact : item.is_active
          · rw [if_neg (by simp [hact])]
            exact ih st _
          · rw [if_pos (by simp [hact])]
            have := ih (deactivatePair st item.client_id item.schema_name)
              (acc ++ [mkSchema item version st.clock])
            refine ⟨?_, this.2⟩
            rw [this.1, deactivatePair_ids]

/-- Case analysis of `ClientSchemaService.create`: either an early rejection
leaves the store untouched, or Phase 6 ran on pairwise-distinct batch pairs
and the result is its state (plus the committed inserts when no error). -/
theorem create_cases (uuidOk : String → Bool) (items : List ClientSchemaCreate)
    (st : RegistryState) :
    (ClientSchemaService.create uuidOk items st).1 = st ∨
    ((items.map (fun item => (item.client_id, item.schema_name))).Nodup ∧
      ∃ st' acc err, prepLoop (tick st) [] items = (st', acc, err) ∧
        (ClientSchemaService.create uuidOk items st).1 =
          (match err with
           | some _ => st'
           | none => commitInserts st' acc)) := by
  unfold ClientSchemaService.create
  by_cases h1 : items.isEmpty
  · left
    rw [if_pos h1]
  · rw [if_neg h1]
    by_cases h2 : items.any (fun item => !uuidOk item.client_id)
    · left
      rw [if_pos h2]
    · rw [if_neg h2]
      by_cases h3 : ¬ (items.map (fun item => (item.client_id, item.schema_name))).Nodup
      · left
        rw [if_pos h3]
      · rw [if_neg h3]
        right
        refine ⟨not_not.mp h3, ?_⟩
        rcases hp : prepLoop (tick st) [] items with ⟨st', acc, err⟩
        refine ⟨st', acc, err, rfl, ?_⟩
        cases err <;> simp only [hp]

theorem create_preserves_singleActive (uuidOk : String → Bool)
    (items : List ClientSchemaCreate) (st : RegistryState)
    (h : SingleActive st) :
    SingleActive (ClientSchemaService.create uuidOk items st).1 := by
  rcases create_cases uuidOk items st with hst | ⟨hnodup, st', acc, err, hp, hres⟩
  · rw [hst]
    exact h
  · have hmain := prepLoop_activeCount items (tick st) []
      (by simpa [pairOfItem] using hnodup)
      (fun c' s' => by simpa using h c' s')
    intro c s
    have hm := hmain c s
    rw [hp] at hm
    have hm' : activeCount st' c s + acc.countP (activePred c s) ≤ 1 := hm
    rw [hres]
    cases err with
    | some e =>
        show activeCount st' c s ≤ 1
        omega
    | none =>
        show activeCount (commitInserts st' acc) c s ≤ 1
        rw [activeCount_commitInserts]
        omega

theorem create_preserves_idsOk (uuidOk : String → Bool)
    (items : List ClientSchemaCreate) (st : RegistryState)
    (h : IdsOk st) :
    IdsOk (ClientSchemaService.create uuidOk items st).1 := by
  rcases create_cases uuidOk items st with hst | ⟨hnodup, st', acc, err, hp, hres⟩
  · rw [hst]
    exact h
  · have hids := prepLoop_ids items (tick st) []
    rw [hp] at hids
    have h1 : st'.schemas.map (fun r => r.id) = st.schemas.map (fun r => r.id) := hids.1
    have h2 : st'.nextId = st.nextId := hids.2
    have hst' : IdsOk st' := IdsOk_of_ids_eq st st' h h1 h2
    rw [hres]
    cases err with
    | some e => exact hst'
    | none => exact commitInserts_preserves_idsOk acc st' hst'

theorem deactivateOthers_ids (st : RegistryState) (schema : ClientSchema) :
    (deactivateOthers st schema).schemas.map (fun r => r.id) =
      st.schemas.map (fun r => r.id) := by
  apply map_id_comp
  intro a
  by_cases hcond : (a.id != schema.id && a.client_id == schema.client_id &&
      a.schema_name == schema.schema_name && a.is_active) = true
  · rw [if_pos hcond]
  · rw [if_neg hcond]

/-- Core of the activation arguments: after deactivating every sibling of
`schema` and then rewriting the record with `schema`'s id through `g` (an
id-preserving, pair-preserving-at-`schema` function that fixes every other
record), each (tenant, document-type) pair has at most one active version. -/
theorem deact_set_count_le (st : RegistryState) (schema : ClientSchema)
    (g : ClientSchema → ClientSchema)
    (hids : (st.schemas.map (fun r => r.id)).Nodup)
    (hmem : schema ∈ st.schemas)
    (hg_id : ∀ x, (g x).id = x.id)
    (hg_skip : ∀ x, x.id ≠ schema.id → g x = x)
    (hg_pair : (g schema).client_id = schema.client_id ∧
      (g schema).schema_name = schema.schema_name)
    (hsa : SingleActive st) (c s : String) :
    ((deactivateOthers st schema).schemas.map g).countP (activePred c s) ≤ 1 := by
  have hdo : (deactivateOthers st schema).schemas
      = st.schemas.map (fun r =>
          if r.id != schema.id && r.client_id == schema.client_id &&
              r.schema_name == schema.schema_name && r.is_active then
            { r with is_active := false, updated_at := st.clock }
          else r) := rfl
  rw [hdo, List.map_map]
  by_cases hpair : c = schema.client_id ∧ s = schema.schema_name
  · obtain ⟨rfl, rfl⟩ := hpair
    have step1 : (st.schemas.map (g ∘ fun r =>
        if r.id != schema.id && r.client_id == schema.client_id &&
            r.schema_name == schema.schema_name && r.is_active then
          { r with is_active := false, updated_at := st.clock }
        else r)).countP (activePred schema.client_id schema.schema_name) ≤
        (st.schemas.map (g ∘ fun r =>
          if r.id != schema.id && r.client_id == schema.client_id &&
              r.schema_name == schema.schema_name && r.is_active then
            { r with is_active := false, updated_at := st.clock }
          else r)).countP (fun r => r.id == schema.id) := by
      apply countP_le_countP
      intro x hx hp
      rcases List.mem_map.mp hx with ⟨a, ha, rfl⟩
      by_cases hc : (a.id != schema.id && a.client_id == schema.client_id &&
          a.schema_name == schema.schema_name && a.is_active) = true
      · exfalso
        have hne : a.id ≠ schema.id := by
          simp only [Bool.and_eq_true, bne_iff_ne] at hc
          exact hc.1.1.1
        have hp' : activePred schema.client_id schema.schema_name
            (g { a with is_active := false, updated_at := st.clock }) = true := by
          have hx2 : (g ∘ fun r =>
              if r.id != schema.id && r.client_id == schema.client_id &&
                  r.schema_name == schema.schema_name && r.is_active then
                { r with is_active := false, updated_at := st.clock }
              else r) a = g { a with is_active := false, updated_at := st.clock } := by
            simp only [Function.comp_apply, if_pos hc]
          rw [← hx2]
          exact hp
        rw [hg_skip { a with is_active := false, updated_at := st.clock } hne] at hp'
        simp [activePred] at hp'
      · have hdfa : (g ∘ fun r =>
            if r.id != schema.id && r.client_id == schema.client_id &&
                r.schema_name == schema.schema_name && r.is_active then
              { r with is_active := false, updated_at := st.clock }
            else r) a = g a := by
          simp only [Function.comp_apply, if_neg hc]
        rw [hdfa] at hp ⊢
        by_cases hia : a.id = schema.id
        · rw [hg_id a]
          exact beq_iff_eq.mpr hia
        · exfalso
          rw [hg_skip a hia] at hp
          simp only [activePred, Bool.and_eq_true, beq_iff_eq] at hp
          apply hc
          simp only [Bool.and_eq_true, bne_iff_ne, beq_iff_eq]
          exact ⟨⟨⟨hia, hp.1.1⟩, hp.1.2⟩, hp.2⟩
    have step2 : (st.schemas.map (g ∘ fun r =>
        if r.id != schema.id && r.client_id == schema.client_id &&
            r.schema_name == schema.schema_name && r.is_active then
          { r with is_active := false, updated_at := st.clock }
        else r)).countP (fun r => r.id == schema.id) ≤ 1 := by
      have hcg : (st.schemas.map (g ∘ fun r =>
          if r.id != schema.id && r.client_id == schema.client_id &&
              r.schema_name == schema.schema_name && r.is_active then
            { r with is_active := false, updated_at := st.clock }
          else r)).countP (fun r => r.id == schema.id) =
          st.schemas.countP (fun r => r.id == schema.id) := by
        apply countP_map_congr
        intro a ha
        have h1 : ((g ∘ fun r =>
            if r.id != schema.id && r.client_id == schema.client_id &&
                r.schema_name == schema.schema_name && r.is_active then
              { r with is_active := false, updated_at := st.clock }
            else r) a).id = a.id := by
          simp only [Function.comp_apply]
          rw [hg_id]
          by_cases hc : (a.id != schema.id && a.client_id == schema.client_id &&
              a.schema_name == schema.schema_name && a.is_active) = true
          · rw [if_pos hc]
          · rw [if_neg hc]
        rw [h1]
      rw [hcg]
      exact countP_le_one_of_nodup_ids st.schemas schema.id hids
    exact le_trans step1 step2
  · refine le_trans (countP_map_mono _ _ _ ?_) (hsa c s)
    intro a ha hp
    by_cases hc : (a.id != schema.id && a.client_id == schema.client_id &&
        a.schema_name == schema.schema_name && a.is_active) = true
    · exfalso
      have hne : a.id ≠ schema.id := by
        simp only [Bool.and_eq_true, bne_iff_ne] at hc
        exact hc.1.1.1
      have hp' : activePred c s
          (g { a with is_active := false, updated_at := st.clock }) = true := by
        have hx2 : (g ∘ fun r =>
            if r.id != schema.id && r.client_id == schema.client_id &&
                r.schema_name == schema.schema_name && r.is_active then
              { r with is_active := false, updated_at := st.clock }
            else r) a = g { a with is_active := false, updated_at := st.clock } := by
          simp only [Function.comp_apply, if_pos hc]
        rw [← hx2]
        exact hp
      rw [hg_skip { a with is_active := false, updated_at := st.clock } hne] at hp'
      simp [activePred] at hp'
    · have hdfa : (g ∘ fun r =>
          if r.id != schema.id && r.client_id == schema.client_id &&
              r.schema_name == schema.schema_name && r.is_active then
            { r with is_active := false, updated_at := st.clock }
          else r) a = g a := by
        simp only [Function.comp_apply, if_neg hc]
      rw [hdfa] at hp
      by_cases hia : a.id = schema.id
      · exfalso
        have haeq : a = schema := mem_unique_of_nodup_ids st.schemas hids ha hmem hia
        subst haeq
        simp only [activePred, Bool.and_eq_true, beq_iff_eq] at hp
        rw [hg_pair.1, hg_pair.2] at hp
        exact hpair ⟨hp.1.1.symm ▸ rfl, hp.1.2.symm ▸ rfl⟩
      · rw [hg_skip a hia] at hp
        exact hp

theorem IdsOk_deact_set (st₀ X : RegistryState) (schema : ClientSchema)
    (g : ClientSchema → ClientSchema) (hg : ∀ x, (g x).id = x.id)
    (hXs : X.schemas = (deactivateOthers st₀ schema).schemas.map g)
    (hXn : X.nextId = st₀.nextId) (h : IdsOk st₀) : IdsOk X := by
  apply IdsOk_of_ids_eq st₀ X h
  · rw [hXs, map_id_comp g hg, deactivateOthers_ids]
  · exact hXn

theorem IdsOk_map_set (st₀ X : RegistryState) (g : ClientSchema → ClientSchema)
    (hg : ∀ x, (g x).id = x.id) (hXs : X.schemas = st₀.schemas.map g)
    (hXn : X.nextId = st₀.nextId) (h : IdsOk st₀) : IdsOk X := by
  apply IdsOk_of_ids_eq st₀ X h
  · rw [hXs, map_id_comp g hg]
  · exact hXn

theorem activate_preserves (i : Nat) (st : RegistryState)
    (h : IdsOk st ∧ SingleActive st) :
    IdsOk (ClientSchemaService.activate_version i st).1 ∧
      SingleActive (ClientSchemaService.activate_version i st).1 := by
  unfold ClientSchemaService.activate_version
  cases hf : (tick st).schemas.find? (fun r => r.id == i) with
  | none =>
      simp only [hf]
      exact h
  | some schema =>
      simp only [hf]
      have hmem : schema ∈ (tick st).schemas := List.mem_of_find?_eq_some hf
      have hpred := List.find?_some hf
      have hid : schema.id = i := eq_of_beq hpred
      have hgid : ∀ x : ClientSchema,
          ((fun r : ClientSchema => if r.id == i then
              { r with is_active := true,
                       updated_at := (deactivateOthers (tick st) schema).clock }
            else r) x).id = x.id := by
        intro x
        show (if (x.id == i) = true then
            { x with is_active := true,
                     updated_at := (deactivateOthers (tick st) schema).clock }
          else x).id = x.id
        by_cases hxi : (x.id == i) = true
        · rw [if_pos hxi]
        · rw [if_neg hxi]
      constructor
      · exact IdsOk_deact_set (tick st) _ schema _ hgid rfl rfl h.1
      · intro c s
        refine deact_set_count_le (tick st) schema _ h.1.1 hmem hgid ?_ ?_
          (fun c' s' => h.2 c' s') c s
        · intro x hxne
          have hxf : (x.id == i) = false := by
            apply beq_eq_false_iff_ne.mpr
            rw [← hid]
            exact hxne
          rw [if_neg (by simp [hxf])]
        · rw [if_pos (beq_iff_eq.mpr hid)]
          exact ⟨rfl, rfl⟩

theorem delete_preserves (i : Nat) (st : RegistryState)
    (h : IdsOk st ∧ SingleActive st) :
    IdsOk (ClientSchemaService.delete i st).1 ∧
      SingleActive (ClientSchemaService.delete i st).1 := by
  unfold ClientSchemaService.delete
  cases hf : (tick st).schemas.find? (fun r => r.id == i) with
  | none =>
      simp only [hf]
      exact h
  | some schema =>
      simp only [hf]
      have hsub : List.Sublist ((tick st).schemas.filter (fun r => r.id != i))
          (tick st).schemas :=
        List.filter_sublist _
      constructor
      · constructor
        · exact List.Nodup.sublist (List.Sublist.map (fun r => r.id) hsub) h.1.1
        · intro r hr
          exact h.1.2 r (List.Sublist.subset hsub hr)
      · intro c s
        exact le_trans (List.Sublist.countP_le (activePred c s) hsub) (h.2 c s)

theorem applyPatch_id (schema : ClientSchema) (patch : ClientSchemaUpdate)
    (now : Nat) : (applyPatch schema patch now).id = schema.id := by
  unfold applyPatch
  cases hia : patch.is_active with
  | none => rfl
  | some b =>
      by_cases hb : (b != schema.is_active) = true
      · simp only [hia, if_pos hb]
      · simp only [hia, if_neg hb]

theorem applyPatch_client_id (schema : ClientSchema) (patch : ClientSchemaUpdate)
    (now : Nat) : (applyPatch schema patch now).client_id = schema.client_id := by
  unfold applyPatch
  cases hia : patch.is_active with
  | none => rfl
  | some b =>
      by_cases hb : (b != schema.is_active) = true
      · simp only [hia, if_pos hb]
      · simp only [hia, if_neg hb]

theorem applyPatch_schema_name (schema : ClientSchema) (patch : ClientSchemaUpdate)
    (now : Nat) : (applyPatch schema patch now).schema_name = schema.schema_name := by
  unfold applyPatch
  cases hia : patch.is_active with
  | none => rfl
  | some b =>
      by_cases hb : (b != schema.is_active) = true
      · simp only [hia, if_pos hb]
      · simp only [hia, if_neg hb]

theorem applyPatch_is_active (schema : ClientSchema) (patch : ClientSchemaUpdate)
    (now : Nat) :
    (applyPatch schema patch now).is_active = patch.is_active.getD schema.is_active := by
  unfold applyPatch
  cases hia : patch.is_active with
  | none => rfl
  | some b =>
      by_cases hb : (b != schema.is_active) = true
      · simp only [hia, if_pos hb]
      · simp only [hia, if_neg hb]
        have : b = schema.is_active := by
          have := bool_eq_false hb
          simpa [bne] using this
        simp [this]

theorem update_preserves (i : Nat) (patch : ClientSchemaUpdate)
    (st : RegistryState) (h : IdsOk st ∧ SingleActive st) :
    IdsOk (ClientSchemaService.update i patch st).1 ∧
      SingleActive (ClientSchemaService.update i patch st).1 := by
  unfold ClientSchemaService.update
  cases hf : (tick st).schemas.find? (fun r => r.id == i) with
  | none =>
      simp only [hf]
      exact h
  | some schema =>
      simp only [hf]
      have hmem : schema ∈ (tick st).schemas := List.mem_of_find?_eq_some hf
      have hpred := List.find?_some hf
      have hid : schema.id = i := eq_of_beq hpred
      have hgid : ∀ (s3 : ClientSchema), s3.id = schema.id →
          ∀ x : ClientSchema,
          ((fun r : ClientSchema => if r.id == i then s3 else r) x).id = x.id := by
        intro s3 hs3 x
        show (if (x.id == i) = true then s3 else x).id = x.id
        by_cases hxi : (x.id == i) = true
        · rw [if_pos hxi, hs3, hid]
          exact (eq_of_beq hxi).symm
        · rw [if_neg hxi]
      -- congruence argument shared by the branches that keep the activation
      -- flag of the saved record equal to the fetched one
      have hcongr : ∀ (s3 : ClientSchema),
          s3.client_id = schema.client_id → s3.schema_name = schema.schema_name →
          s3.is_active = schema.is_active → ∀ c s,
          ((tick st).schemas.map
            (fun r => if r.id == i then s3 else r)).countP (activePred c s) ≤ 1 := by
        intro s3 hs3c hs3n hs3a c s
        have harg : ∀ a ∈ (tick st).schemas,
            activePred c s ((fun r : ClientSchema => if r.id == i then s3 else r) a)
              = activePred c s a := by
          intro a ha
          show activePred c s (if (a.id == i) = true then s3 else a) = activePred c s a
          by_cases hxi : (a.id == i) = true
          · have haeq : a = schema := by
              apply mem_unique_of_nodup_ids (tick st).schemas h.1.1 ha hmem
              rw [eq_of_beq hxi, hid]
            subst haeq
            rw [if_pos hxi]
            simp [activePred, hs3c, hs3n, hs3a]
          · rw [if_neg hxi]
        rw [countP_map_congr _ _ _ harg]
        exact h.2 c s
      have hmono : ∀ (s3 : ClientSchema), s3.is_active = false → ∀ c s,
          ((tick st).schemas.map
            (fun r => if r.id == i then s3 else r)).countP (activePred c s) ≤ 1 := by
        intro s3 hs3a c s
        refine le_trans (countP_map_mono _ _ _ ?_) (h.2 c s)
        intro a ha hp
        have hp' : activePred c s (if (a.id == i) = true then s3 else a) = true := hp
        by_cases hxi : (a.id == i) = true
        · rw [if_pos hxi] at hp'
          simp [activePred, hs3a] at hp'
        · rw [if_neg hxi] at hp'
          exact hp'
      cases hia : patch.is_active with
      | none =>
          simp only [hia]
          refine ⟨IdsOk_map_set (tick st) _ _
            (hgid _ (applyPatch_id schema patch (tick st).clock)) rfl rfl h.1, ?_⟩
          intro c s
          refine hcongr _ (applyPatch_client_id _ _ _) (applyPatch_schema_name _ _ _)
            ?_ c s
          rw [applyPatch_is_active, hia]
          rfl
      | some b =>
          cases b with
          | false =>
              simp only [hia, Bool.and_false, Bool.false_eq_true, if_false]
              refine ⟨IdsOk_map_set (tick st) _ _
                (hgid _ (applyPatch_id schema patch (tick st).clock)) rfl rfl h.1, ?_⟩
              intro c s
              refine hmono _ ?_ c s
              rw [applyPatch_is_active, hia]
              rfl
          | true =>
              simp only [hia, Bool.and_true]
              cases hact : schema.is_active with
              | true =>
                  simp only [bne_self_eq_false, Bool.false_eq_true, if_false]
                  refine ⟨IdsOk_map_set (tick st) _ _
                    (hgid _ (applyPatch_id schema patch (tick st).clock)) rfl rfl h.1, ?_⟩
                  intro c s
                  refine hcongr _ (applyPatch_client_id _ _ _)
                    (applyPatch_schema_name _ _ _) ?_ c s
                  rw [applyPatch_is_active, hia, hact]
                  rfl
              | false =>
                  simp only [show (true != false) = true from rfl, if_true]
                  constructor
                  · exact IdsOk_deact_set (tick st) _ schema _
                      (hgid _ (applyPatch_id schema patch _)) rfl rfl h.1
                  · intro c s
                    refine deact_set_count_le (tick st) schema _ h.1.1 hmem
                      (hgid _ (applyPatch_id schema patch _)) ?_ ?_
                      (fun c' s' => h.2 c' s') c s
                    · intro x hxne
                      have hxf : (x.id == i) = false := by
                        apply beq_eq_false_iff_ne.mpr
                        rw [← hid]
                        exact hxne
                      rw [if_neg (by simp [hxf])]
                    · rw [if_pos (beq_iff_eq.mpr hid)]
                      exact ⟨applyPatch_client_id _ _ _, applyPatch_schema_name _ _ _⟩

theorem invariant_applyOp (uuidOk : String → Bool) (op : RegistryOp)
    (st : RegistryState) (h : IdsOk st ∧ SingleActive st) :
    IdsOk (applyOp uuidOk op st) ∧ SingleActive (applyOp uuidOk op st) := by
  cases op with
  | createOp items =>
      exact ⟨create_preserves_idsOk uuidOk items st h.1,
        create_preserves_singleActive uuidOk items st h.2⟩
  | activateOp i => exact activate_preserves i st h
  | updateOp i p => exact update_preserves i p st h
  | deleteOp i => exact delete_preserves i st h

theorem invariant_runOps (uuidOk : String → Bool) (ops : List RegistryOp)
    (st : RegistryState) (h : IdsOk st ∧ SingleActive st) :
    IdsOk (runOps uuidOk ops st) ∧ SingleActive (runOps uuidOk ops st) := by
  induction ops generalizing st with
  | nil => exact h
  | cons op rest ih => exact ih (applyOp uuidOk op st) (invariant_applyOp uuidOk op st h)

/-- C1: for every (tenant_id, document_type) pair, after any sequence of
schema create, activate, update (and delete) calls executed sequentially to
completion starting from the empty registry, at most one stored
SchemaDefinition of that pair has `is_active = true` — the operations that
set a version active first save `is_active = false` (with a bumped
`updated_at`) on every other version of the pair. -/
theorem C1_single_active_version (uuidOk : String → Bool)
    (ops : List RegistryOp) (c s : String) :
    activeCount (runOps uuidOk ops RegistryState.init) c s ≤ 1 :=
  (invariant_runOps uuidOk ops RegistryState.init
    ⟨⟨List.nodup_nil, fun r hr => absurd hr (List.not_mem_nil r)⟩,
      fun _ _ => Nat.zero_le 1⟩).2 c s

section SingleCreate

theorem le_foldl_max_of_le (vs : List Int) (a b : Int) (h : a ≤ b) :
    a ≤ vs.foldl max b := by
  induction vs generalizing b with
  | nil => exact h
  | cons w ws ih =>
      show a ≤ ws.foldl max (max b w)
      exact ih (max b w) (le_trans h (le_max_left b w))

theorem le_foldl_max (vs : List Int) (v x : Int) (h : x = v ∨ x ∈ vs) :
    x ≤ vs.foldl max v := by
  induction vs generalizing v with
  | nil =>
      rcases h with rfl | h
      · exact le_refl x
      · cases h
  | cons w ws ih =>
      show x ≤ ws.foldl max (max v w)
      rcases h with rfl | h
      · exact le_foldl_max_of_le ws x (max x w) (le_max_left x w)
      · rcases List.mem_cons.mp h with rfl | h
        · exact le_foldl_max_of_le ws x (max v x) (le_max_right v x)
        · exact ih (max v w) (Or.inr h)

theorem le_maxVersion (l : List ClientSchema) (r : ClientSchema) (hr : r ∈ l) :
    r.version ≤ maxVersion l := by
  unfold maxVersion
  have hmem : r.version ∈ l.map (fun x => x.version) :=
    List.mem_map_of_mem (fun x => x.version) hr
  cases hl : l.map (fun x => x.version) with
  | nil =>
      rw [hl] at hmem
      cases hmem
  | cons v vs =>
      rw [hl] at hmem
      rcases List.mem_cons.mp hmem with rfl | hmem
      · exact le_foldl_max vs r.version r.version (Or.inl rfl)
      · exact le_foldl_max vs v r.version (Or.inr hmem)

theorem findPair_tick (st : RegistryState) (c s : String) :
    findPair (tick st) c s = findPair st c s := rfl

/-- A single-item create call whose explicit version duplicates a stored
version of the pair: rejected with Conflict, store unchanged. -/
theorem create_single_conflict (uuidOk : String → Bool)
    (item : ClientSchemaCreate) (st : RegistryState) (v : Int)
    (huuid : uuidOk item.client_id = true)
    (hv : item.version = some v) (hv0 : v ≠ 0)
    (hdup : (findPair st item.client_id item.schema_name).any
      (fun r => r.version == v) = true) :
    ClientSchemaService.create uuidOk [item] st = (tick st, some .conflict) := by
  have hvf : versionFor item (findPair (tick st) item.client_id item.schema_name)
      = .error .conflict := by
    rw [findPair_tick]
    simp only [versionFor, hv]
    rw [if_pos (by simpa [bne_iff_ne] using hv0), if_pos hdup]
  unfold ClientSchemaService.create
  rw [if_neg (by simp), if_neg (by simp [huuid]), if_neg (by simp)]
  have hp : prepLoop (tick st) [] [item] = (tick st, [], some .conflict) := by
    unfold prepLoop
    rw [hvf]
  simp only [hp]

/-- A single-item create call without an explicit version: succeeds, and the
inserted document's version is the maximum stored version of the pair plus
one. -/
theorem create_single_auto (uuidOk : String → Bool)
    (item : ClientSchemaCreate) (st : RegistryState)
    (huuid : uuidOk item.client_id = true) (hv : item.version = none) :
    (ClientSchemaService.create uuidOk [item] st).2 = none ∧
    (ClientSchemaService.create uuidOk [item] st).1.schemas =
      (if item.is_active = true then
          deactivatePair (tick st) item.client_id item.schema_name
        else tick st).schemas ++
      [{ mkSchema item
          (maxVersion (findPair st item.client_id item.schema_name) + 1)
          (tick st).clock with id := (tick st).nextId }] := by
  have hvf : versionFor item (findPair (tick st) item.client_id item.schema_name)
      = .ok (maxVersion (findPair st item.client_id item.schema_name) + 1) := by
    rw [findPair_tick]
    simp only [versionFor, hv]
  unfold ClientSchemaService.create
  rw [if_neg (by simp), if_neg (by simp [huuid]), if_neg (by simp)]
  have hp : prepLoop (tick st) [] [item] =
      ((if item.is_active = true then
          deactivatePair (tick st) item.client_id item.schema_name
        else tick st),
        [mkSchema item
          (maxVersion (findPair st item.client_id item.schema_name) + 1)
          (tick st).clock], none) := by
    unfold prepLoop
    rw [hvf]
    rfl
  cases hact : item.is_active <;> simp only [hp, hact] <;> exact ⟨trivial, rfl⟩

/-- C6: explicit duplicate versions are rejected with Conflict and insert
nothing; a create without an explicit version is assigned the maximum
existing version of its (tenant_id, document_type) pair plus one (1 when
none exist), strictly above every existing version.  The positivity of an
explicit version and the validity of `client_id` come from the request
model, which is spec-modelled (§3: version is a positive integer). -/
theorem C6_version_assignment (uuidOk : String → Bool)
    (item : ClientSchemaCreate) (st : RegistryState) (v : Int)
    (huuid : uuidOk item.client_id = true) :
    ((item.version = some v → 0 < v →
        (∃ r ∈ findPair st item.client_id item.schema_name, r.version = v) →
        (ClientSchemaService.create uuidOk [item] st).1.schemas = st.schemas ∧
          (ClientSchemaService.create uuidOk [item] st).2 = some .conflict) ∧
      (item.version = none →
        ∃ recNew : ClientSchema,
          (ClientSchemaService.create uuidOk [item] st).2 = none ∧
          (ClientSchemaService.create uuidOk [item] st).1.schemas =
            (if item.is_active = true then
                deactivatePair (tick st) item.client_id item.schema_name
              else tick st).schemas ++ [recNew] ∧
          recNew.version =
            maxVersion (findPair st item.client_id item.schema_name) + 1 ∧
          ∀ r ∈ findPair st item.client_id item.schema_name,
            r.version < recNew.version)) := by
  constructor
  · intro h1 h2 h3
    have hdup : (findPair st item.client_id item.schema_name).any
        (fun r => r.version == v) = true := by
      apply List.any_eq_true.mpr
      rcases h3 with ⟨r, hr, hrv⟩
      exact ⟨r, hr, beq_iff_eq.mpr hrv⟩
    have hc := create_single_conflict uuidOk item st v huuid h1
      (by omega) hdup
    rw [hc]
    exact ⟨rfl, rfl⟩
  · intro h1
    have hauto := create_single_auto uuidOk item st huuid h1
    refine ⟨_, hauto.1, hauto.2, rfl, ?_⟩
    intro r hr
    have hle := le_maxVersion (findPair st item.client_id item.schema_name) r hr
    have hrec : ({ mkSchema item
        (maxVersion (findPair st item.client_id item.schema_name) + 1)
        (tick st).clock with id := (tick st).nextId } : ClientSchema).version =
        maxVersion (findPair st item.client_id item.schema_name) + 1 := rfl
    rw [hrec]
    omega

/-- Concrete instantiation of the C6 theorem: a registry holding version 1 of
("t", "d"); an explicit re-create of version 1 is rejected with Conflict, and
a versionless create succeeds. -/
theorem C6_version_assignment_witness :
    (ClientSchemaService.create (fun _ => true)
        [{ client_id := "t", schema_name := "d", version := some 1 }]
        { schemas := [{ id := 0, client_id := "t", schema_name := "d",
                        version := 1, is_active := false }],
          nextId := 1, clock := 0 }).2 = some ServiceError.conflict ∧
    (ClientSchemaService.create (fun _ => true)
        [{ client_id := "t", schema_name := "d" }]
        { schemas := [{ id := 0, client_id := "t", schema_name := "d",
                        version := 1, is_active := false }],
          nextId := 1, clock := 0 }).2 = none := by
  constructor
  · have h1 := (C6_version_assignment (fun _ => true)
      { client_id := "t", schema_name := "d", version := some 1 }
      { schemas := [{ id := 0, client_id := "t", schema_name := "d",
                      version := 1, is_active := false }],
        nextId := 1, clock := 0 } 1 rfl).1 rfl (by omega)
      ⟨{ id := 0, client_id := "t", schema_name := "d",
         version := 1, is_active := false },
        show ({ id := 0, client_id := "t", schema_name := "d",
                version := 1, is_active := false } : ClientSchema) ∈
            [{ id := 0, client_id := "t", schema_name := "d",
               version := 1, is_active := false }] from
          List.mem_singleton.mpr rfl, rfl⟩
    exact h1.2
  · have h2 := (C6_version_assignment (fun _ => true)
      { client_id := "t", schema_name := "d" }
      { schemas := [{ id := 0, client_id := "t", schema_name := "d",
                      version := 1, is_active := false }],
        nextId := 1, clock := 0 } 1 rfl).2 rfl
    rcases h2 with ⟨recNew, hnone, _⟩
    exact hnone

/-- C7 counterexample: for tenant "t" and type "d", an auto-versioned create
assigns version 1; deleting that schema and creating again without a version
assigns version 1 a second time — the deleted version number is reused. -/
theorem C7_counterexample :
    ((ClientSchemaService.create (fun _ => true)
        [{ client_id := "t", schema_name := "d" }]
        RegistryState.init).1.schemas.map (fun r => r.version) = [1]) ∧
    ((ClientSchemaService.delete 0
        (ClientSchemaService.create (fun _ => true)
          [{ client_id := "t", schema_name := "d" }]
          RegistryState.init).1).1.schemas.map (fun r => r.version) = []) ∧
    ((ClientSchemaService.create (fun _ => true)
        [{ client_id := "t", schema_name := "d" }]
        (ClientSchemaService.delete 0
          (ClientSchemaService.create (fun _ => true)
            [{ client_id := "t", schema_name := "d" }]
            RegistryState.init).1).1).1.schemas.map (fun r => r.version) = [1]) := by
  refine ⟨rfl, rfl, rfl⟩

/-- C7 amended: auto-assignment always takes the maximum across the
still-existing versions of the pair plus one, so a deleted version v can be
re-assigned once every surviving version is below v; while some version ≥ v
still exists, v is never assigned again. -/
theorem C7_amended_no_reuse_while_ge_version_survives (uuidOk : String → Bool)
    (item : ClientSchemaCreate) (st : RegistryState) (v : Int)
    (huuid : uuidOk item.client_id = true) (hv : item.version = none)
    (hsurv : ∃ r ∈ findPair st item.client_id item.schema_name, v ≤ r.version) :
    ∃ recNew : ClientSchema,
      (ClientSchemaService.create uuidOk [item] st).2 = none ∧
      (ClientSchemaService.create uuidOk [item] st).1.schemas =
        (if item.is_active = true then
            deactivatePair (tick st) item.client_id item.schema_name
          else tick st).schemas ++ [recNew] ∧
      recNew.version =
        maxVersion (findPair st item.client_id item.schema_name) + 1 ∧
      recNew.version ≠ v := by
  have hauto := create_single_auto uuidOk item st huuid hv
  refine ⟨_, hauto.1, hauto.2, rfl, ?_⟩
  rcases hsurv with ⟨r, hr, hvr⟩
  have hle := le_maxVersion (findPair st item.client_id item.schema_name) r hr
  have hrec : ({ mkSchema item
      (maxVersion (findPair st item.client_id item.schema_name) + 1)
      (tick st).clock with id := (tick st).nextId } : ClientSchema).version =
      maxVersion (findPair st item.client_id item.schema_name) + 1 := rfl
  rw [hrec]
  omega

/-- Concrete instantiation of the amended C7 theorem: versions 1 and 2 of
("t", "d") exist, version 1 is deleted; the surviving version 2 keeps a later
auto create from re-assigning version 1 (it assigns 3). -/
theorem C7_amended_witness :
    ∃ recNew : ClientSchema,
      (ClientSchemaService.create (fun _ => true)
        [{ client_id := "t", schema_name := "d" }]
        (ClientSchemaService.delete 0
          { schemas := [{ id := 0, client_id := "t", schema_name := "d",
                          version := 1, is_active := false },
                        { id := 1, client_id := "t", schema_name := "d",
                          version := 2, is_active := false }],
            nextId := 2, clock := 0 }).1).2 = none ∧
      recNew.version ≠ 1 := by
  rcases C7_amended_no_reuse_while_ge_version_survives (fun _ => true)
      { client_id := "t", schema_name := "d" }
      (ClientSchemaService.delete 0
        { schemas := [{ id := 0, client_id := "t", schema_name := "d",
                        version := 1, is_active := false },
                      { id := 1, client_id := "t", schema_name := "d",
                        version := 2, is_active := false }],
          nextId := 2, clock := 0 }).1 1 rfl rfl
      ⟨{ id := 1, client_id := "t", schema_name := "d",
         version := 2, is_active := false },
        show ({ id := 1, client_id := "t", schema_name := "d",
                version := 2, is_active := false } : ClientSchema) ∈
            [{ id := 1, client_id := "t", schema_name := "d",
               version := 2, is_active := false }] from
          List.mem_singleton.mpr rfl,
        by decide⟩
    with ⟨recNew, hnone, _, _, hne⟩
  exact ⟨recNew, hnone, hne⟩

end SingleCreate

end RegistryInvariant

section DocumentResolution

/-- C2 (code bug): `DocumentService._get_active_schema` resolves the active
schema by `schema_name` and `is_active` only, ignoring the requesting
tenant.  With tenant "tenant-a" owning the only active "invoice" schema, a
request by "tenant-b" resolves tenant-a's schema instead of failing with
NotFound, although the pair ("tenant-b", "invoice") has no active version —
as the correctly scoped registry query (`ClientSchemaService.get_active_schema`)
confirms. -/
theorem C2_document_resolver_ignores_tenant :
    ∃ schema : ClientSchema,
      DocumentService.getActiveSchema "tenant-b" "invoice"
        { schemas := [{ id := 0, client_id := "tenant-a",
                        schema_name := "invoice", version := 1,
                        is_active := true }],
          nextId := 1, clock := 0 } = some schema ∧
      schema.client_id = "tenant-a" ∧
      schema.client_id ≠ "tenant-b" ∧
      ClientSchemaService.get_active_schema "tenant-b" "invoice"
        { schemas := [{ id := 0, client_id := "tenant-a",
                        schema_name := "invoice", version := 1,
                        is_active := true }],
          nextId := 1, clock := 0 } = none := by
  refine ⟨_, rfl, rfl, by decide, rfl⟩

end DocumentResolution

section Validator

/-- Python `isinstance(value, str)`. -/
def isPyStr : Value → Bool
  | .vStr _ => true
  | _ => false

/-- Python `isinstance(value, (int, float))`.  In Python `bool` is a subclass
of `int`, so booleans satisfy this check. -/
def isPyNumber : Value → Bool
  | .vInt _ => true
  | .vFloat _ => true
  | .vBool _ => true
  | _ => false

/-- Python `isinstance(value, bool)`. -/
def isPyBool : Value → Bool
  | .vBool _ => true
  | _ => false

/-- Python `isinstance(value, list)`. -/
def isPyList : Value → Bool
  | .vList _ => true
  | _ => false

/-- Python `isinstance(value, dict)`. -/
def isPyDict : Value → Bool
  | .vDict _ => true
  | _ => false

/-- The `type_checks` table of `validate_document_against_config` (also used
verbatim by the partial validation in `DocumentService.update`): the declared
type string maps to an isinstance check and the type name used in error
messages; unknown type strings are not checked. -/
def type_checks (field_type : String) : Option ((Value → Bool) × String) :=
  match field_type with
  | "string" => some (isPyStr, "string")
  | "number" => some (isPyNumber, "number")
  | "boolean" => some (isPyBool, "boolean")
  | "array" => some (isPyList, "array")
  | "object" => some (isPyDict, "object")
  | "date" => some (isPyStr, "date string (ISO format)")
  | _ => none

/-- Error text for a missing required field (the Python message quotes the
field name; the quotes are elided here). -/
def reqMsg (n : String) : String := "Required field " ++ n ++ " is missing"

/-- Error text for a type mismatch (the Python message also names the actual
Python type of the value; abbreviated here). -/
def typeMsg (n tyName : String) : String := "Field " ++ n ++ " must be " ++ tyName

/-- Error text for a value outside `allowed_values` (the Python message spells
out the allowed list and the value; abbreviated here). -/
def enumMsg (n : String) : String := "Field " ++ n ++ " must be one of the allowed values"

/-- The per-field body of the validation loop of
`validate_document_against_config`: a required absent field contributes its
error and skips the rest; an absent optional field contributes nothing; a
present field is type-checked against `type_checks` and, when
`allowed_values` is truthy (set and non-empty), membership-checked. -/
def fieldErrors (data : PyDict) (field : SchemaField) : List String :=
  if field.required && (pyGet data field.name).isNone then
    [reqMsg field.name]
  else
    match pyGet data field.name with
    | none => []
    | some value =>
        (match type_checks field.type with
         | some ct => if ct.1 value then [] else [typeMsg field.name ct.2]
         | none => []) ++
        (match field.allowed_values with
         | some vs => if !vs.isEmpty && !(vs.contains value) then [enumMsg field.name]
            else []
         | none => [])

/-- Embeds `validate_document_against_config`: the violations of all fields,
accumulated in declaration order. -/
def validate_document_against_config (data : PyDict) (fields : List SchemaField) :
    List String :=
  fields.foldl (fun errors field => errors ++ fieldErrors data field) []

/-- The raise at the end of `validate_document_against_config`: one aggregate
`ValueError` exactly when some violation accumulated.  The Python exception
message is `"Validation errors: "` followed by the `"; "`-join of the list
carried here. -/
def validateResult (data : PyDict) (fields : List SchemaField) :
    Except (List String) Unit :=
  let errors := validate_document_against_config data fields
  if errors.isEmpty then .ok () else .error errors

/-- The per-field check of the partial validation loop in
`DocumentService.update`: type check first (raising immediately), then the
truthy-`allowed_values` membership check. -/
def updateFieldError (f : SchemaField) (value : Value) : Option String :=
  match type_checks f.type with
  | some ct =>
      if !ct.1 value then some (typeMsg f.name ct.2)
      else
        match f.allowed_values with
        | some vs => if !vs.isEmpty && !(vs.contains value) then some (enumMsg f.name)
            else none
        | none => none
  | none =>
      match f.allowed_values with
      | some vs => if !vs.isEmpty && !(vs.contains value) then some (enumMsg f.name)
          else none
      | none => none

/-- Embeds the partial-validation loop of `DocumentService.update`: iterate
the supplied entries, look each key up among the declared fields (first
match), and raise the first type or enum violation; required-ness is not
enforced and undeclared keys are skipped. -/
def update_partial_validate (data : PyDict) (fields : List SchemaField) :
    Option String :=
  match data with
  | [] => none
  | (field_name, value) :: rest =>
      match fields.find? (fun f => f.name == field_name) with
      | none => update_partial_validate rest fields
      | some f =>
          match updateFieldError f value with
          | some m => some m
          | none => update_partial_validate rest fields

/-- The claim's fixed type mapping (string→str, number→int-or-float,
boolean→bool, array→list, object→dict, date→str), read with Python
isinstance semantics (a bool is an int); types outside the mapping carry no
rule. -/
def claimTypeCheck (t : String) : Option (Value → Bool) :=
  match t with
  | "string" => some isPyStr
  | "number" => some isPyNumber
  | "boolean" => some isPyBool
  | "array" => some isPyList
  | "object" => some isPyDict
  | "date" => some isPyStr
  | _ => none

/-- A declared rule violated, exactly as the claim words it: a required field
absent, a present field failing the fixed type mapping, or a present field
whose value is not a member of its `allowed_values` (whenever the list is
set — including set to the empty list). -/
def declaredRuleViolatedB (data : PyDict) (f : SchemaField) : Bool :=
  (f.required && (pyGet data f.name).isNone) ||
    match pyGet data f.name with
    | none => false
    | some v =>
        (match claimTypeCheck f.type with
         | some check => !check v
         | none => false) ||
        (match f.allowed_values with
         | some vs => !vs.contains v
         | none => false)

/-- The amended notion of a violated rule: as `declaredRuleViolatedB`, except
that an `allowed_values` list set to the empty list carries no rule (Python
truthiness disables the membership check). -/
def amendedRuleViolatedB (data : PyDict) (f : SchemaField) : Bool :=
  (f.required && (pyGet data f.name).isNone) ||
    match pyGet data f.name with
    | none => false
    | some v =>
        (match claimTypeCheck f.type with
         | some check => !check v
         | none => false) ||
        (match f.allowed_values with
         | some vs => !vs.isEmpty && !vs.contains v
         | none => false)

/-- The amended per-supplied-field rule for update-time partial validation:
type rule and non-empty-enum rule of the declared field, applied to the
supplied value. -/
def amendedSuppliedViolatedB (f : SchemaField) (v : Value) : Bool :=
  (match claimTypeCheck f.type with
   | some check => !check v
   | none => false) ||
  (match f.allowed_values with
   | some vs => !vs.isEmpty && !vs.contains v
   | none => false)

/-- C5 counterexample: a declared string field with `allowed_values = []` and
a payload supplying a value.  As written, the claim calls this a violation
(the value is not a member of its allowed_values), yet the code accumulates
no error and the validation passes — Python truthiness of the empty list
disables the membership check. -/
theorem C5_counterexample :
    validate_document_against_config [("s", .vStr "x")]
      [{ name := "s", type := "string", allowed_values := some [] }] = [] ∧
    declaredRuleViolatedB [("s", .vStr "x")]
      { name := "s", type := "string", allowed_values := some [] } = true := by
  exact ⟨rfl, rfl⟩

theorem claimTypeCheck_eq (t : String) :
    claimTypeCheck t = (type_checks t).map (fun ct => ct.1) := by
  unfold claimTypeCheck type_checks
  split <;> rfl

theorem fieldErrors_ne_nil_iff (data : PyDict) (f : SchemaField) :
    fieldErrors data f ≠ [] ↔ amendedRuleViolatedB data f = true := by
  unfold fieldErrors amendedRuleViolatedB
  by_cases hreq : (f.required && (pyGet data f.name).isNone) = true
  · rw [if_pos hreq, hreq]
    simp
  · rw [if_neg hreq, bool_eq_false hreq]
    simp only [Bool.false_or]
    cases hget : pyGet data f.name with
    | none => simp
    | some v =>
        rw [claimTypeCheck_eq]
        cases hc : type_checks f.type with
        | none =>
            cases ha : f.allowed_values with
            | none => simp
            | some vs =>
                by_cases henum : (!vs.isEmpty && !vs.contains v) = true <;>
                  simp [henum, bool_eq_false]
        | some ct =>
            cases ha : f.allowed_values with
            | none =>
                by_cases htype : ct.1 v = true <;> simp [htype]
            | some vs =>
                by_cases htype : ct.1 v = true <;>
                  by_cases henum : (!vs.isEmpty && !vs.contains v) = true <;>
                    simp [htype, henum, bool_eq_false]

theorem validate_foldl_acc (data : PyDict) (fields : List SchemaField)
    (acc : List String) :
    fields.foldl (fun errors field => errors ++ fieldErrors data field) acc
      = acc ++ fields.foldl (fun errors field => errors ++ fieldErrors data field) [] := by
  induction fields generalizing acc with
  | nil => simp
  | cons f rest ih =>
      show List.foldl _ (acc ++ fieldErrors data f) rest
          = acc ++ List.foldl _ ([] ++ fieldErrors data f) rest
      rw [ih (acc ++ fieldErrors data f), ih ([] ++ fieldErrors data f)]
      simp

theorem validate_cons (data : PyDict) (f : SchemaField) (rest : List SchemaField) :
    validate_document_against_config data (f :: rest)
      = fieldErrors data f ++ validate_document_against_config data rest := by
  unfold validate_document_against_config
  show List.foldl _ ([] ++ fieldErrors data f) rest = _
  rw [validate_foldl_acc data rest ([] ++ fieldErrors data f)]
  simp

theorem validate_ne_nil_iff (data : PyDict) (fields : List SchemaField) :
    validate_document_against_config data fields ≠ [] ↔
      ∃ f ∈ fields, fieldErrors data f ≠ [] := by
  induction fields with
  | nil => simp [validate_document_against_config]
  | cons f rest ih =>
      rw [validate_cons]
      by_cases hf : fieldErrors data f = []
      · simp [hf, ih]
      · constructor
        · intro _
          exact ⟨f, List.mem_cons_self f rest, hf⟩
        · intro _ hnil
          exact hf (List.append_eq_nil.mp hnil).1

theorem mem_validate_of_mem_fieldErrors (data : PyDict) (fields : List SchemaField)
    (f : SchemaField) (hf : f ∈ fields) (m : String) (hm : m ∈ fieldErrors data f) :
    m ∈ validate_document_against_config data fields := by
  induction fields with
  | nil => cases hf
  | cons g rest ih =>
      rw [validate_cons]
      rcases List.mem_cons.mp hf with rfl | hf2
      · exact List.mem_append_left _ hm
      · exact List.mem_append_right _ (ih hf2)

theorem fieldErrors_congr (data d₂ : PyDict) (f : SchemaField)
    (h : pyGet d₂ f.name = pyGet data f.name) :
    fieldErrors d₂ f = fieldErrors data f := by
  unfold fieldErrors
  rw [h]

theorem validate_congr (data d₂ : PyDict) (fields : List SchemaField)
    (h : ∀ f ∈ fields, pyGet d₂ f.name = pyGet data f.name) :
    validate_document_against_config d₂ fields
      = validate_document_against_config data fields := by
  induction fields with
  | nil => rfl
  | cons f rest ih =>
      rw [validate_cons, validate_cons,
        fieldErrors_congr data d₂ f (h f (List.mem_cons_self f rest)),
        ih (fun g hg => h g (List.mem_cons_of_mem f hg))]

theorem updateFieldError_ne_none_iff (f : SchemaField) (v : Value) :
    updateFieldError f v ≠ none ↔ amendedSuppliedViolatedB f v = true := by
  unfold updateFieldError amendedSuppliedViolatedB
  rw [claimTypeCheck_eq]
  cases hc : type_checks f.type with
  | none =>
      cases ha : f.allowed_values with
      | none => simp
      | some vs =>
          by_cases henum : (!vs.isEmpty && !vs.contains v) = true <;>
            simp [henum, bool_eq_false]
  | some ct =>
      cases ha : f.allowed_values with
      | none => by_cases htype : ct.1 v = true <;> simp [htype]
      | some vs =>
          by_cases htype : ct.1 v = true <;>
            by_cases henum : (!vs.isEmpty && !vs.contains v) = true <;>
              simp [htype, henum, bool_eq_false]

theorem update_partial_validate_cons (k : String) (v : Value)
    (rest : PyDict) (fields : List SchemaField) :
    update_partial_validate ((k, v) :: rest) fields =
      match fields.find? (fun f => f.name == k) with
      | none => update_partial_validate rest fields
      | some f =>
          match updateFieldError f v with
          | some m => some m
          | none => update_partial_validate rest fields := rfl

theorem update_partial_validate_ne_none_iff (data : PyDict)
    (fields : List SchemaField) :
    update_partial_validate data fields ≠ none ↔
      ∃ kv ∈ data, ∃ f, fields.find? (fun x => x.name == kv.1) = some f ∧
        amendedSuppliedViolatedB f kv.2 = true := by
  induction data with
  | nil => simp [update_partial_validate]
  | cons kv rest ih =>
      rcases kv with ⟨k, v⟩
      cases hfind : fields.find? (fun f => f.name == k) with
      | none =>
          have hstep : update_partial_validate ((k, v) :: rest) fields
              = update_partial_validate rest fields := by
            rw [update_partial_validate_cons, hfind]
          rw [hstep, ih]
          constructor
          · rintro ⟨kv2, hkv2, f, hfindf, hviol⟩
            exact ⟨kv2, List.mem_cons_of_mem _ hkv2, f, hfindf, hviol⟩
          · rintro ⟨kv2, hkv2, f, hfindf, hviol⟩
            rcases List.mem_cons.mp hkv2 with rfl | hkv2m
            · rw [hfind] at hfindf
              cases hfindf
            · exact ⟨kv2, hkv2m, f, hfindf, hviol⟩
      | some f =>
          cases herr : updateFieldError f v with
          | some m =>
              have hstep : update_partial_validate ((k, v) :: rest) fields
                  = some m := by
                rw [update_partial_validate_cons, hfind]
                show (match updateFieldError f v with
                      | some m => some m
                      | none => update_partial_validate rest fields) = some m
                rw [herr]
              rw [hstep]
              constructor
              · intro _
                refine ⟨(k, v), List.mem_cons_self _ _, f, hfind, ?_⟩
                exact (updateFieldError_ne_none_iff f v).mp (by simp [herr])
              · intro _
                simp
          | none =>
              have hstep : update_partial_validate ((k, v) :: rest) fields
                  = update_partial_validate rest fields := by
                rw [update_partial_validate_cons, hfind]
                show (match updateFieldError f v with
                      | some m => some m
                      | none => update_partial_validate rest fields)
                    = update_partial_validate rest fields
                rw [herr]
              rw [hstep, ih]
              have hviolf : amendedSuppliedViolatedB f v = false := by
                apply bool_eq_false
                intro hv
                exact ((updateFieldError_ne_none_iff f v).mpr hv) herr
              constructor
              · rintro ⟨kv2, hkv2, g, hfindg, hviol⟩
                exact ⟨kv2, List.mem_cons_of_mem _ hkv2, g, hfindg, hviol⟩
              · rintro ⟨kv2, hkv2, g, hfindg, hviol⟩
                rcases List.mem_cons.mp hkv2 with rfl | hkv2m
                · rw [hfind] at hfindg
                  cases hfindg
                  rw [hviolf] at hviol
                  cases hviol
                · exact ⟨kv2, hkv2m, g, hfindg, hviol⟩

/-- C5 amended: document validation fails exactly when some declared rule is
violated — required field absent, present declared value failing the fixed
type mapping, or a present value outside a non-empty `allowed_values` list
(an empty list disables the check, amending the claim) — and on failure one
aggregate error is raised carrying every violation, not only the first;
validation depends only on the values of declared fields, so undeclared
payload keys never cause a violation; update-time partial validation applies
the type and enum rules to exactly the supplied declared fields. -/
theorem C5_amended_validation (data : PyDict) (fields : List SchemaField) :
    (validate_document_against_config data fields ≠ [] ↔
      ∃ f ∈ fields, amendedRuleViolatedB data f = true) ∧
    (∀ errs, validateResult data fields = .error errs →
      ∀ f ∈ fields, ∀ m ∈ fieldErrors data f, m ∈ errs) ∧
    (∀ d₂ : PyDict, (∀ f ∈ fields, pyGet d₂ f.name = pyGet data f.name) →
      validate_document_against_config d₂ fields
        = validate_document_against_config data fields) ∧
    (update_partial_validate data fields ≠ none ↔
      ∃ kv ∈ data, ∃ f, fields.find? (fun x => x.name == kv.1) = some f ∧
        amendedSuppliedViolatedB f kv.2 = true) := by
  refine ⟨?_, ?_, ?_, ?_⟩
  · rw [validate_ne_nil_iff]
    constructor
    · rintro ⟨f, hf, hne⟩
      exact ⟨f, hf, (fieldErrors_ne_nil_iff data f).mp hne⟩
    · rintro ⟨f, hf, hviol⟩
      exact ⟨f, hf, (fieldErrors_ne_nil_iff data f).mpr hviol⟩
  · intro errs herrs f hf m hm
    unfold validateResult at herrs
    by_cases hempty : (validate_document_against_config data fields).isEmpty = true
    · rw [if_pos hempty] at herrs
      cases herrs
    · rw [if_neg hempty] at herrs
      cases herrs
      exact mem_validate_of_mem_fieldErrors data fields f hf m hm
  · intro d₂ h
    exact validate_congr data d₂ fields h
  · exact update_partial_validate_ne_none_iff data fields

/-- Concrete instantiation of the C5 amended theorem: a required "amount"
field missing from an empty payload makes create-time validation fail, and a
string supplied for the declared number field makes update-time partial
validation fail. -/
theorem C5_amended_validation_witness :
    validate_document_against_config []
      [{ name := "amount", type := "number", required := true }] ≠ [] ∧
    update_partial_validate [("amount", .vStr "x")]
      [{ name := "amount", type := "number" }] ≠ none := by
  constructor
  · exact (C5_amended_validation []
      [{ name := "amount", type := "number", required := true }]).1.mpr
      ⟨{ name := "amount", type := "number", required := true },
        List.mem_singleton.mpr rfl, rfl⟩
  · exact (C5_amended_validation [("amount", .vStr "x")]
      [{ name := "amount", type := "number" }]).2.2.2.mpr
      ⟨("amount", .vStr "x"), List.mem_singleton.mpr rfl,
        { name := "amount", type := "number" }, rfl, rfl⟩

end Validator

section DocumentStore

/-- Embeds `DynamicCollectionConfig`: schema name, field definitions, tenant
id, and the Motor collection handle.  A collection handle is identified by
the collection's name in the database (`get_collection` returns
`db[schema_name]`). -/
structure DynamicCollectionConfig where
  schema_name : String
  fields : List SchemaField
  client_id : String
  collName : String

/-- The process-wide `_collection_registry`, keyed by the string
`client_id + "_" + schema_name`. -/
abbrev CollectionRegistry := List (String × DynamicCollectionConfig)

/-- Embeds `get_or_create_collection_config`: compute the cache key by string
concatenation, return the cached config unchanged if the key is present,
otherwise build a config whose collection handle is `db[schema_name]`
(`get_collection` also ensures the baseline client_id/created_at/updated_at
indexes, which only touches index state) and register it. -/
def get_or_create_collection_config (schema_name : String)
    (fields : List SchemaField) (client_id : String)
    (registry : CollectionRegistry) :
    DynamicCollectionConfig × CollectionRegistry :=
  let config_key := client_id ++ "_" ++ schema_name
  match registry.find? (fun kv => kv.1 == config_key) with
  | some kv => (kv.2, registry)
  | none =>
      let config : DynamicCollectionConfig :=
        { schema_name := schema_name, fields := fields,
          client_id := client_id, collName := schema_name }
      (config, registry ++ [(config_key, config)])

/-- The document store: named collections of documents, the next
store-assigned ObjectId and a logical clock for `datetime.now()`. -/
structure DocState where
  colls : List (String × List PyDict)
  nextOid : Nat
  clock : Nat

/-- The documents of the named collection (Mongo creates collections lazily,
so an unknown name reads as empty). -/
def getColl (dst : DocState) (name : String) : List PyDict :=
  match dst.colls.find? (fun kv => kv.1 == name) with
  | some kv => kv.2
  | none => []

/-- Replace the documents of the named collection (creating it on first
write). -/
def setColl (dst : DocState) (name : String) (docs : List PyDict) : DocState :=
  if dst.colls.any (fun kv => kv.1 == name) then
    { dst with colls := dst.colls.map (fun kv =>
        if kv.1 == name then (kv.1, docs) else kv) }
  else
    { dst with colls := dst.colls ++ [(name, docs)] }

/-- Embeds `collection.insert_one`: the driver adds a store-assigned `_id`
when the document has none, and the document is appended to the
collection. -/
def insertOne (dst : DocState) (name : String) (doc : PyDict) : DocState × Nat :=
  let oid := dst.nextOid
  let doc' := if (pyGet doc "_id").isSome then doc
    else doc ++ [("_id", Value.vObjectId oid)]
  ({ setColl dst name (getColl dst name ++ [doc']) with nextOid := oid + 1 }, oid)

/-- The per-payload loop of `DocumentService.create`: validate against the
config's field list (the whole call aborts with 422 on the first invalid
payload, keeping the documents already inserted), stamp the base fields, and
insert. -/
def createLoop (config : DynamicCollectionConfig) (client_id : String)
    (created_by : Option String) :
    DocState → List PyDict → Option ServiceError × DocState
  | dst, [] => (none, dst)
  | dst, data :: rest =>
      if validate_document_against_config data config.fields ≠ [] then
        (some .unprocessable, dst)
      else
        let doc := prepare_document_for_insert data client_id created_by
          created_by dst.clock
        let r := insertOne dst config.collName doc
        createLoop config client_id created_by r.1 rest

/-- Embeds `DocumentService.create`: resolve the active schema with the
tenant-blind `_get_active_schema`, obtain or create the collection config
(the field list argument is the resolved schema's fields — the source
converts them to dicts enumerating every field key, an identity here), then
validate/stamp/insert each payload.  `create_indexes_for_schema` reconciles
only the index state, modelled separately by `reconcileIndexes`; it never
touches documents. -/
def DocumentService.create (client_id collection_name : String)
    (documents : List PyDict) (created_by : Option String)
    (reg : RegistryState) (cache : CollectionRegistry) (dst : DocState) :
    Option ServiceError × CollectionRegistry × DocState :=
  match DocumentService.getActiveSchema client_id collection_name reg with
  | none => (some .notFound, cache, dst)
  | some schema =>
      let cc := get_or_create_collection_config collection_name schema.fields
        client_id cache
      let r := createLoop cc.1 client_id created_by dst documents
      (r.1, cc.2, r.2)

/-- Embeds `DocumentService.get_by_id`: resolve the active schema, obtain
the collection config, and `find_one` filtered by both `_id` and
`client_id`; a miss is NotFound; the hit is serialized. -/
def DocumentService.get_by_id (client_id collection_name : String)
    (document_id : Nat) (reg : RegistryState) (cache : CollectionRegistry)
    (dst : DocState) : Except ServiceError PyDict × CollectionRegistry :=
  match DocumentService.getActiveSchema client_id collection_name reg with
  | none => (.error .notFound, cache)
  | some schema =>
      let cc := get_or_create_collection_config collection_name schema.fields
        client_id cache
      match (getColl dst cc.1.collName).find? (fun d =>
          pyGet d "_id" == some (Value.vObjectId document_id) &&
          pyGet d "client_id" == some (Value.vStr client_id)) with
      | none => (.error .notFound, cc.2)
      | some doc => (.ok (serialize_document doc), cc.2)

/-- Embeds `DocumentService.get_all`: resolve, obtain the config, find all
documents of the tenant with skip/limit pagination, serialized. -/
def DocumentService.get_all (client_id collection_name : String)
    (skip limit : Nat) (reg : RegistryState) (cache : CollectionRegistry)
    (dst : DocState) : Except ServiceError (List PyDict) × CollectionRegistry :=
  match DocumentService.getActiveSchema client_id collection_name reg with
  | none => (.error .notFound, cache)
  | some schema =>
      let cc := get_or_create_collection_config collection_name schema.fields
        client_id cache
      let docs := ((((getColl dst cc.1.collName).filter (fun d =>
          pyGet d "client_id" == some (Value.vStr client_id))).drop skip).take limit)
      (.ok (docs.map serialize_document), cc.2)

/-- C10: the cache key is the plain concatenation `client_id ++ "_" ++
schema_name`, so the distinct argument pairs ("a_b", "c") and ("a", "b_c")
share the key "a_b_c": the second caller receives the identical cached
config built for the first pair — its schema_name, client_id, field list and
collection handle are the first caller's, not its own. -/
theorem C10_cache_key_collision :
    (get_or_create_collection_config "b_c" [{ name := "x", type := "string" }]
        "a" (get_or_create_collection_config "c" [] "a_b" []).2).1 =
      (get_or_create_collection_config "c" [] "a_b" []).1 ∧
    (get_or_create_collection_config "b_c" [{ name := "x", type := "string" }]
        "a" (get_or_create_collection_config "c" [] "a_b" []).2).1.schema_name = "c" ∧
    (get_or_create_collection_config "b_c" [{ name := "x", type := "string" }]
        "a" (get_or_create_collection_config "c" [] "a_b" []).2).1.client_id = "a_b" ∧
    (get_or_create_collection_config "b_c" [{ name := "x", type := "string" }]
        "a" (get_or_create_collection_config "c" [] "a_b" []).2).1.fields = [] ∧
    (get_or_create_collection_config "b_c" [{ name := "x", type := "string" }]
        "a" (get_or_create_collection_config "c" [] "a_b" []).2).1.collName = "c" ∧
    ("a_b", "c") ≠ ("a", "b_c") := by
  refine ⟨rfl, rfl, rfl, rfl, rfl, by decide⟩

/-- C3 counterexample: `prepare_document_for_insert` spreads the user data
after the system stamps, so a payload key named `client_id` overrides the
tenant stamp — both at the level of the stamping function and end to end,
where the document inserted for tenant "t1" carries `client_id`
"intruder". -/
theorem C3_counterexample :
    pyGet (prepare_document_for_insert [("client_id", Value.vStr "intruder")]
      "t1" none none 0) "client_id" = some (Value.vStr "intruder") ∧
    some (Value.vStr "intruder") ≠ some (Value.vStr "t1") ∧
    (let r := DocumentService.create "t1" "inv"
        [[("client_id", Value.vStr "intruder")]] none
        { schemas := [{ id := 0, client_id := "t1", schema_name := "inv",
                        version := 1, is_active := true }],
          nextId := 1, clock := 0 }
        [] { colls := [], nextOid := 0, clock := 0 }
     r.1 = none ∧
       (getColl r.2.2 "inv").map (fun d => pyGet d "client_id")
         = [some (Value.vStr "intruder")]) := by
  refine ⟨rfl, by simp, rfl, rfl⟩

/-- C3 amended: the inserted document carries the system stamps exactly when
the payload does not itself bind the base-field keys; any payload key —
including `client_id`, `created_at`, `updated_at`, `created_by`,
`updated_by` — keeps its payload value, overriding the stamp. -/
theorem C3_amended_base_field_stamping (data : PyDict) (client_id : String)
    (created_by updated_by : Option String) (now : Nat)
    (h : ∀ k ∈ ["client_id", "created_at", "updated_at", "created_by",
      "updated_by"], pyGet data k = none) :
    pyGet (prepare_document_for_insert data client_id created_by updated_by now)
        "client_id" = some (Value.vStr client_id) ∧
    pyGet (prepare_document_for_insert data client_id created_by updated_by now)
        "created_at" = some (Value.vDateTime now) ∧
    pyGet (prepare_document_for_insert data client_id created_by updated_by now)
        "updated_at" = some (Value.vDateTime now) ∧
    pyGet (prepare_document_for_insert data client_id created_by updated_by now)
        "created_by" = some (optStr created_by) ∧
    pyGet (prepare_document_for_insert data client_id created_by updated_by now)
        "updated_by" = some (optStr updated_by) ∧
    (∀ k v, pyGet data k = some v →
      pyGet (prepare_document_for_insert data client_id created_by updated_by now)
        k = some v) := by
  refine ⟨?_, ?_, ?_, ?_, ?_, ?_⟩
  · unfold prepare_document_for_insert
    rw [pyGet_pyUpdate, h "client_id" (by simp)]
    rfl
  · unfold prepare_document_for_insert
    rw [pyGet_pyUpdate, h "created_at" (by simp)]
    rfl
  · unfold prepare_document_for_insert
    rw [pyGet_pyUpdate, h "updated_at" (by simp)]
    rfl
  · unfold prepare_document_for_insert
    rw [pyGet_pyUpdate, h "created_by" (by simp)]
    rfl
  · unfold prepare_document_for_insert
    rw [pyGet_pyUpdate, h "updated_by" (by simp)]
    rfl
  · intro k v hk
    unfold prepare_document_for_insert
    rw [pyGet_pyUpdate, hk]

/-- Concrete instantiation of the amended C3 theorem: a payload binding only
"amount" receives all five system stamps. -/
theorem C3_amended_witness :
    pyGet (prepare_document_for_insert [("amount", Value.vInt 5)] "t1"
      (some "u1") (some "u1") 7) "client_id" = some (Value.vStr "t1") ∧
    pyGet (prepare_document_for_insert [("amount", Value.vInt 5)] "t1"
      (some "u1") (some "u1") 7) "created_at" = some (Value.vDateTime 7) := by
  have h := C3_amended_base_field_stamping [("amount", Value.vInt 5)] "t1"
    (some "u1") (some "u1") 7
    (by
      intro k hk
      simp only [List.mem_cons, List.not_mem_nil, or_false] at hk
      rcases hk with rfl | rfl | rfl | rfl | rfl <;> rfl)
  exact ⟨h.1, h.2.1⟩

/-- The per-document scoring of `DocumentService.search`: skip documents
whose column value is missing or falsy, score
`fuzz.partial_ratio(value.lower(), str(doc_value).lower())` (the rapidfuzz
scorer is an external library, abstracted as the `fuzz` argument), and keep
the matches at or above the threshold. -/
def searchMatches (fuzz : String → String → Nat) (column v : String)
    (threshold : Nat) (docs : List PyDict) : List (PyDict × Nat) :=
  docs.filterMap (fun doc =>
    match pyGet doc column with
    | some dv =>
        if pyTruthy dv then
          if threshold ≤ fuzz (v.toLower) ((pyStr dv).toLower) then
            some (doc, fuzz (v.toLower) ((pyStr dv).toLower))
          else none
        else none
    | none => none)

/-- Insertion step of the score-descending sort. -/
def insertByScore (x : PyDict × Nat) : List (PyDict × Nat) → List (PyDict × Nat)
  | [] => [x]
  | y :: ys => if y.2 < x.2 then x :: y :: ys else y :: insertByScore x ys

/-- Models `matches.sort(key=lambda x: x["score"], reverse=True)`: a
score-non-increasing reordering of the matches (the Python sort is stable;
tie order is unspecified by the spec and not relied upon here). -/
def sortByScoreDesc (l : List (PyDict × Nat)) : List (PyDict × Nat) :=
  l.foldr insertByScore []

/-- Embeds `DocumentService.search`: resolve the active schema, check the
column against the declared field names plus the base searchable fields,
obtain the collection config, scan every document of the tenant, score with
the abstract `fuzz`, keep scores at or above the threshold, order by
descending score and cap at `top_n`, serializing the winners. -/
def DocumentService.search (fuzz : String → String → Nat)
    (client_id collection_name column value : String)
    (threshold top_n : Nat) (reg : RegistryState) (cache : CollectionRegistry)
    (dst : DocState) : Except ServiceError (List PyDict) × CollectionRegistry :=
  match DocumentService.getActiveSchema client_id collection_name reg with
  | none => (.error .notFound, cache)
  | some schema =>
      let field_names := schema.fields.map (fun f => f.name)
      let allowed_fields := field_names ++ ["client_id", "created_by", "updated_by"]
      if !(allowed_fields.contains column) then (.error .badRequest, cache)
      else
        let cc := get_or_create_collection_config collection_name schema.fields
          client_id cache
        let all_documents := (getColl dst cc.1.collName).filter (fun d =>
          pyGet d "client_id" == some (Value.vStr client_id))
        let top_matches := (sortByScoreDesc
          (searchMatches fuzz column value.trim threshold all_documents)).take top_n
        (.ok (top_matches.map (fun m => serialize_document m.1)), cc.2)

section SearchLemmas

theorem mem_insertByScore (x y : PyDict × Nat) (l : List (PyDict × Nat)) :
    y ∈ insertByScore x l ↔ y = x ∨ y ∈ l := by
  induction l with
  | nil => simp [insertByScore]
  | cons z zs ih =>
      unfold insertByScore
      by_cases h : z.2 < x.2
      · rw [if_pos h]
        simp [List.mem_cons]
      · rw [if_neg h]
        simp only [List.mem_cons, ih]
        tauto

theorem mem_sortByScoreDesc (y : PyDict × Nat) (l : List (PyDict × Nat)) :
    y ∈ sortByScoreDesc l ↔ y ∈ l := by
  induction l with
  | nil => simp [sortByScoreDesc]
  | cons z zs ih =>
      show y ∈ insertByScore z (sortByScoreDesc zs) ↔ _
      rw [mem_insertByScore]
      simp only [List.mem_cons, ih]

theorem sorted_insertByScore (x : PyDict × Nat) (l : List (PyDict × Nat))
    (h : List.Sorted (fun a b : PyDict × Nat => b.2 ≤ a.2) l) :
    List.Sorted (fun a b : PyDict × Nat => b.2 ≤ a.2) (insertByScore x l) := by
  induction l with
  | nil => simp [insertByScore]
  | cons y ys ih =>
      unfold insertByScore
      rw [List.sorted_cons] at h
      by_cases hlt : y.2 < x.2
      · rw [if_pos hlt, List.sorted_cons]
        constructor
        · intro b hb
          rcases List.mem_cons.mp hb with rfl | hb2
          · exact le_of_lt hlt
          · exact le_trans (h.1 b hb2) (le_of_lt hlt)
        · rw [List.sorted_cons]
          exact h
      · rw [if_neg hlt, List.sorted_cons]
        constructor
        · intro b hb
          rcases (mem_insertByScore x b ys).mp hb with rfl | hb2
          · exact Nat.le_of_not_lt hlt
          · exact h.1 b hb2
        · exact ih h.2

theorem sorted_sortByScoreDesc (l : List (PyDict × Nat)) :
    List.Sorted (fun a b : PyDict × Nat => b.2 ≤ a.2) (sortByScoreDesc l) := by
  induction l with
  | nil => simp [sortByScoreDesc]
  | cons z zs ih => exact sorted_insertByScore z _ ih

theorem mem_searchMatches (fuzz : String → String → Nat) (column v : String)
    (threshold : Nat) (docs : List PyDict) (m : PyDict × Nat)
    (hm : m ∈ searchMatches fuzz column v threshold docs) :
    m.1 ∈ docs ∧ threshold ≤ m.2 ∧
      ∃ dv, pyGet m.1 column = some dv ∧ pyTruthy dv = true ∧
        m.2 = fuzz (v.toLower) ((pyStr dv).toLower) := by
  rcases List.mem_filterMap.mp hm with ⟨doc, hdoc, hf⟩
  cases hg : pyGet doc column with
  | none =>
      rw [hg] at hf
      cases hf
  | some dv =>
      rw [hg] at hf
      have hf' : (if pyTruthy dv = true then
          if threshold ≤ fuzz (v.toLower) ((pyStr dv).toLower) then
            some (doc, fuzz (v.toLower) ((pyStr dv).toLower))
          else none
        else none) = some m := hf
      by_cases ht : pyTruthy dv = true
      · rw [if_pos ht] at hf'
        by_cases hs : threshold ≤ fuzz (v.toLower) ((pyStr dv).toLower)
        · rw [if_pos hs] at hf'
          cases hf'
          exact ⟨hdoc, hs, dv, hg, ht, rfl⟩
        · rw [if_neg hs] at hf'
          cases hf'
      · rw [if_neg ht] at hf'
        cases hf'

end SearchLemmas

section BeqInversion

theorem value_beq_def (a b : Value) : (a == b) = Value.beq a b := rfl

theorem value_beq_vStr {v : Value} {s : String}
    (h : (v == Value.vStr s) = true) : v = Value.vStr s := by
  cases v <;> simp_all [value_beq_def, Value.beq]

theorem value_beq_vObjectId {v : Value} {n : Nat}
    (h : (v == Value.vObjectId n) = true) : v = Value.vObjectId n := by
  cases v <;> simp_all [value_beq_def, Value.beq]

theorem pyGet_eq_of_beq_some {d : PyDict} {k : String} {w : Value}
    (h : (pyGet d k == some w) = true) :
    ∃ v, pyGet d k = some v ∧ (v == w) = true := by
  cases hg : pyGet d k with
  | none =>
      rw [hg] at h
      exact Bool.noConfusion h
  | some v =>
      rw [hg] at h
      exact ⟨v, rfl, h⟩

theorem pyGet_eq_vStr_of_beq {d : PyDict} {k s : String}
    (h : (pyGet d k == some (Value.vStr s)) = true) :
    pyGet d k = some (Value.vStr s) := by
  rcases pyGet_eq_of_beq_some h with ⟨v, hv, hb⟩
  rw [hv, value_beq_vStr hb]

theorem pyGet_eq_vObjectId_of_beq {d : PyDict} {k : String} {n : Nat}
    (h : (pyGet d k == some (Value.vObjectId n)) = true) :
    pyGet d k = some (Value.vObjectId n) := by
  rcases pyGet_eq_of_beq_some h with ⟨v, hv, hb⟩
  rw [hv, value_beq_vObjectId hb]

theorem serialize_document_cons (k : String) (v : Value) (d : PyDict) :
    serialize_document ((k, v) :: d) = (k, serializeValue v) :: serialize_document d :=
  rfl

theorem pyGet_serialize (d : PyDict) (k : String) :
    pyGet (serialize_document d) k = (pyGet d k).map serializeValue := by
  induction d with
  | nil => rfl
  | cons kv rest ih =>
      rcases kv with ⟨k', v⟩
      rw [serialize_document_cons, pyGet_cons, pyGet_cons]
      by_cases hk : (k' == k) = true
      · rw [if_pos hk, if_pos hk]
        rfl
      · rw [if_neg hk, if_neg hk, ih]

end BeqInversion

end DocumentStore



section ReadIsolation

/-- C4: tenant isolation on reads — get_by_id, get_all and search only ever
return documents whose stored `client_id` field equals the `client_id`
argument of the call (every read filters on it), and a get_by_id whose
document id matches only documents stored under other tenants ends in
NotFound rather than another tenant's document. -/
theorem C4_tenant_isolation (fuzz : String → String → Nat)
    (client_id collection_name column value : String) (document_id : Nat)
    (skip limit threshold top_n : Nat) (reg : RegistryState)
    (cache : CollectionRegistry) (dst : DocState) :
    (∀ doc, (DocumentService.get_by_id client_id collection_name document_id
        reg cache dst).1 = .ok doc →
      pyGet doc "client_id" = some (Value.vStr client_id)) ∧
    (∀ docs, (DocumentService.get_all client_id collection_name skip limit
        reg cache dst).1 = .ok docs →
      ∀ doc ∈ docs, pyGet doc "client_id" = some (Value.vStr client_id)) ∧
    (∀ docs, (DocumentService.search fuzz client_id collection_name column value
        threshold top_n reg cache dst).1 = .ok docs →
      ∀ doc ∈ docs, pyGet doc "client_id" = some (Value.vStr client_id)) ∧
    ((∀ name, ∀ d ∈ getColl dst name,
        pyGet d "_id" = some (Value.vObjectId document_id) →
        pyGet d "client_id" ≠ some (Value.vStr client_id)) →
      (DocumentService.get_by_id client_id collection_name document_id
        reg cache dst).1 = .error .notFound) := by
  refine ⟨?_, ?_, ?_, ?_⟩
  · intro doc hdoc
    unfold DocumentService.get_by_id at hdoc
    cases hres : DocumentService.getActiveSchema client_id collection_name reg with
    | none =>
        rw [hres] at hdoc
        exact Except.noConfusion hdoc
    | some schema =>
        rw [hres] at hdoc
        cases hfind : (getColl dst (get_or_create_collection_config collection_name
            schema.fields client_id cache).1.collName).find? (fun d =>
            pyGet d "_id" == some (Value.vObjectId document_id) &&
            pyGet d "client_id" == some (Value.vStr client_id)) with
        | none =>
            have hdoc2 : (Except.error ServiceError.notFound : Except ServiceError PyDict)
                = .ok doc := by
              rw [← hdoc]
              show _ = (match (getColl dst (get_or_create_collection_config
                  collection_name schema.fields client_id cache).1.collName).find?
                  (fun d => pyGet d "_id" == some (Value.vObjectId document_id) &&
                    pyGet d "client_id" == some (Value.vStr client_id)) with
                | none => ((Except.error ServiceError.notFound : Except ServiceError PyDict),
                    (get_or_create_collection_config collection_name schema.fields
                      client_id cache).2)
                | some doc0 => (Except.ok (serialize_document doc0),
                    (get_or_create_collection_config collection_name schema.fields
                      client_id cache).2)).1
              rw [hfind]
            exact Except.noConfusion hdoc2
        | some d0 =>
            have hdoc2 : (Except.ok (serialize_document d0) : Except ServiceError PyDict)
                = Except.ok doc := by
              rw [← hdoc]
              show _ = (match (getColl dst (get_or_create_collection_config
                  collection_name schema.fields client_id cache).1.collName).find?
                  (fun d => pyGet d "_id" == some (Value.vObjectId document_id) &&
                    pyGet d "client_id" == some (Value.vStr client_id)) with
                | none => ((Except.error ServiceError.notFound : Except ServiceError PyDict),
                    (get_or_create_collection_config collection_name schema.fields
                      client_id cache).2)
                | some doc0 => (Except.ok (serialize_document doc0),
                    (get_or_create_collection_config collection_name schema.fields
                      client_id cache).2)).1
              rw [hfind]
            cases hdoc2
            have hpred := List.find?_some hfind
            rw [Bool.and_eq_true] at hpred
            rw [pyGet_serialize, pyGet_eq_vStr_of_beq hpred.2]
            rfl
  · intro docs hdocs
    unfold DocumentService.get_all at hdocs
    cases hres : DocumentService.getActiveSchema client_id collection_name reg with
    | none =>
        rw [hres] at hdocs
        exact Except.noConfusion hdocs
    | some schema =>
        rw [hres] at hdocs
        have hdocs2 : Except.ok (((((getColl dst (get_or_create_collection_config
            collection_name schema.fields client_id cache).1.collName).filter (fun d =>
            pyGet d "client_id" == some (Value.vStr client_id))).drop skip).take
            limit).map serialize_document) = Except.ok docs := hdocs
        cases hdocs2
        intro doc hdoc
        rcases List.mem_map.mp hdoc with ⟨d0, hd0, rfl⟩
        have hd1 := List.take_subset _ _ hd0
        have hd2 := List.drop_subset _ _ hd1
        have hpred := List.of_mem_filter hd2
        rw [pyGet_serialize, pyGet_eq_vStr_of_beq hpred]
        rfl
  · intro docs hdocs
    unfold DocumentService.search at hdocs
    cases hres : DocumentService.getActiveSchema client_id collection_name reg with
    | none =>
        rw [hres] at hdocs
        exact Except.noConfusion hdocs
    | some schema =>
        rw [hres] at hdocs
        by_cases hcol : (!((schema.fields.map (fun f => f.name) ++
            ["client_id", "created_by", "updated_by"]).contains column)) = true
        · have hdocs2 : (Except.error ServiceError.badRequest :
              Except ServiceError (List PyDict)) = .ok docs := by
            rw [← hdocs]
            show _ = ((if (!((schema.fields.map (fun f => f.name) ++
                ["client_id", "created_by", "updated_by"]).contains column)) = true then
                ((Except.error ServiceError.badRequest :
                  Except ServiceError (List PyDict)), cache)
              else
                ((Except.ok (((sortByScoreDesc (searchMatches fuzz column value.trim
                    threshold ((getColl dst (get_or_create_collection_config
                      collection_name schema.fields client_id cache).1.collName).filter
                      (fun d => pyGet d "client_id" == some (Value.vStr
                        client_id))))).take top_n).map
                    (fun m => serialize_document m.1))),
                  (get_or_create_collection_config collection_name schema.fields
                    client_id cache).2))).1
            rw [if_pos hcol]
          exact Except.noConfusion hdocs2
        · have hdocs2 : (Except.ok (((sortByScoreDesc (searchMatches fuzz column
              value.trim threshold ((getColl dst (get_or_create_collection_config
                collection_name schema.fields client_id cache).1.collName).filter
                (fun d => pyGet d "client_id" == some (Value.vStr
                  client_id))))).take top_n).map
              (fun m => serialize_document m.1)) :
              Except ServiceError (List PyDict)) = Except.ok docs := by
            rw [← hdocs]
            show _ = ((if (!((schema.fields.map (fun f => f.name) ++
                ["client_id", "created_by", "updated_by"]).contains column)) = true then
                ((Except.error ServiceError.badRequest :
                  Except ServiceError (List PyDict)), cache)
              else
                ((Except.ok (((sortByScoreDesc (searchMatches fuzz column value.trim
                    threshold ((getColl dst (get_or_create_collection_config
                      collection_name schema.fields client_id cache).1.collName).filter
                      (fun d => pyGet d "client_id" == some (Value.vStr
                        client_id))))).take top_n).map
                    (fun m => serialize_document m.1))),
                  (get_or_create_collection_config collection_name schema.fields
                    client_id cache).2))).1
            rw [if_neg hcol]
          cases hdocs2
          intro doc hdoc
          rcases List.mem_map.mp hdoc with ⟨m, hm, rfl⟩
          have hm1 := List.take_subset _ _ hm
          have hm2 := (mem_sortByScoreDesc m _).mp hm1
          have hm3 := mem_searchMatches fuzz column value.trim threshold _ m hm2
          have hpred := List.of_mem_filter hm3.1
          rw [pyGet_serialize, pyGet_eq_vStr_of_beq hpred]
          rfl
  · intro hcross
    unfold DocumentService.get_by_id
    cases hres : DocumentService.getActiveSchema client_id collection_name reg with
    | none => rfl
    | some schema =>
        cases hfind : (getColl dst (get_or_create_collection_config collection_name
            schema.fields client_id cache).1.collName).find? (fun d =>
            pyGet d "_id" == some (Value.vObjectId document_id) &&
            pyGet d "client_id" == some (Value.vStr client_id)) with
        | none =>
            show (match (getColl dst (get_or_create_collection_config collection_name
                schema.fields client_id cache).1.collName).find? (fun d =>
                pyGet d "_id" == some (Value.vObjectId document_id) &&
                pyGet d "client_id" == some (Value.vStr client_id)) with
              | none => ((Except.error ServiceError.notFound : Except ServiceError PyDict),
                  (get_or_create_collection_config collection_name schema.fields
                    client_id cache).2)
              | some doc0 => (Except.ok (serialize_document doc0),
                  (get_or_create_collection_config collection_name schema.fields
                    client_id cache).2)).1 = .error .notFound
            rw [hfind]
        | some d0 =>
            exfalso
            have hmem := List.mem_of_find?_eq_some hfind
            have hpred := List.find?_some hfind
            rw [Bool.and_eq_true] at hpred
            exact hcross _ d0 hmem (pyGet_eq_vObjectId_of_beq hpred.1)
              (pyGet_eq_vStr_of_beq hpred.2)

/-- Concrete instantiation of the C4 theorem: tenant "t1" reads back its own
document, and a get_by_id for the same document id by tenant "t2" (whose
store holds no document with that id and client "t2") is NotFound. -/
theorem C4_tenant_isolation_witness :
    pyGet (serialize_document [("_id", Value.vObjectId 0),
      ("client_id", Value.vStr "t1")]) "client_id" = some (Value.vStr "t1") ∧
    (DocumentService.get_by_id "t2" "inv" 0
      { schemas := [{ id := 0, client_id := "t1", schema_name := "inv",
                      version := 1, is_active := true }],
        nextId := 1, clock := 0 }
      []
      { colls := [("inv", [[("_id", Value.vObjectId 0),
          ("client_id", Value.vStr "t1")]])],
        nextOid := 1, clock := 0 }).1 = .error .notFound := by
  constructor
  · exact (C4_tenant_isolation (fun _ _ => 0) "t1" "inv" "x" "y" 0 0 100 70 3
      { schemas := [{ id := 0, client_id := "t1", schema_name := "inv",
                      version := 1, is_active := true }],
        nextId := 1, clock := 0 }
      []
      { colls := [("inv", [[("_id", Value.vObjectId 0),
          ("client_id", Value.vStr "t1")]])],
        nextOid := 1, clock := 0 }).1
      (serialize_document [("_id", Value.vObjectId 0),
        ("client_id", Value.vStr "t1")]) rfl
  · apply (C4_tenant_isolation (fun _ _ => 0) "t2" "inv" "x" "y" 0 0 100 70 3
      { schemas := [{ id := 0, client_id := "t1", schema_name := "inv",
                      version := 1, is_active := true }],
        nextId := 1, clock := 0 }
      []
      { colls := [("inv", [[("_id", Value.vObjectId 0),
          ("client_id", Value.vStr "t1")]])],
        nextOid := 1, clock := 0 }).2.2.2
    intro name d hd hid
    have hname : name = "inv" := by
      by_cases hn : name = "inv"
      · exact hn
      · exfalso
        have : getColl { colls := [("inv", [[("_id", Value.vObjectId 0),
            ("client_id", Value.vStr "t1")]])], nextOid := 1, clock := 0 } name = [] := by
          unfold getColl
          have : (("inv" : String) == name) = false := by
            apply beq_eq_false_iff_ne.mpr
            intro he
            exact hn he.symm
          simp [List.find?, this]
        rw [this] at hd
        cases hd
    subst hname
    have hd1 : d = [("_id", Value.vObjectId 0), ("client_id", Value.vStr "t1")] := by
      have : getColl { colls := [("inv", [[("_id", Value.vObjectId 0),
          ("client_id", Value.vStr "t1")]])], nextOid := 1, clock := 0 } "inv"
          = [[("_id", Value.vObjectId 0), ("client_id", Value.vStr "t1")]] := rfl
      rw [this] at hd
      exact List.mem_singleton.mp hd
    subst hd1
    intro hcid
    have : some (Value.vStr "t1") = some (Value.vStr "t2") := by
      rw [← hcid]
      rfl
    simp at this

end ReadIsolation

section SearchRanking

/-- C8: search ranking — whenever search returns ok, the results are the
serializations of a list of (document, score) matches in which every score
is the fuzzy similarity of the lowercased trimmed query value against the
lowercased stringified column value, every score is at least the threshold,
the matches are in non-increasing score order, and at most top_n results
are returned. -/
theorem C8_search_ranking (fuzz : String → String → Nat)
    (client_id collection_name column value : String) (threshold top_n : Nat)
    (reg : RegistryState) (cache : CollectionRegistry) (dst : DocState)
    (out : List PyDict)
    (h : (DocumentService.search fuzz client_id collection_name column value
      threshold top_n reg cache dst).1 = .ok out) :
    out.length ≤ top_n ∧
    ∃ ms : List (PyDict × Nat),
      out = ms.map (fun m => serialize_document m.1) ∧
      List.Sorted (fun a b : PyDict × Nat => b.2 ≤ a.2) ms ∧
      ∀ m ∈ ms, threshold ≤ m.2 ∧
        ∃ dv, pyGet m.1 column = some dv ∧ pyTruthy dv = true ∧
          m.2 = fuzz (value.trim.toLower) ((pyStr dv).toLower) := by
  unfold DocumentService.search at h
  cases hres : DocumentService.getActiveSchema client_id collection_name reg with
  | none =>
      rw [hres] at h
      exact Except.noConfusion h
  | some schema =>
      rw [hres] at h
      by_cases hcol : (!((schema.fields.map (fun f => f.name) ++
          ["client_id", "created_by", "updated_by"]).contains column)) = true
      · have h2 : (Except.error ServiceError.badRequest :
            Except ServiceError (List PyDict)) = .ok out := by
          rw [← h]
          show _ = ((if (!((schema.fields.map (fun f => f.name) ++
              ["client_id", "created_by", "updated_by"]).contains column)) = true then
              ((Except.error ServiceError.badRequest :
                Except ServiceError (List PyDict)), cache)
            else
              ((Except.ok (((sortByScoreDesc (searchMatches fuzz column value.trim
                  threshold ((getColl dst (get_or_create_collection_config
                    collection_name schema.fields client_id cache).1.collName).filter
                    (fun d => pyGet d "client_id" == some (Value.vStr
                      client_id))))).take top_n).map
                  (fun m => serialize_document m.1))),
                (get_or_create_collection_config collection_name schema.fields
                  client_id cache).2))).1
          rw [if_pos hcol]
        exact Except.noConfusion h2
      · have h2 : (Except.ok (((sortByScoreDesc (searchMatches fuzz column
            value.trim threshold ((getColl dst (get_or_create_collection_config
              collection_name schema.fields client_id cache).1.collName).filter
              (fun d => pyGet d "client_id" == some (Value.vStr
                client_id))))).take top_n).map
            (fun m => serialize_document m.1)) :
            Except ServiceError (List PyDict)) = Except.ok out := by
          rw [← h]
          show _ = ((if (!((schema.fields.map (fun f => f.name) ++
              ["client_id", "created_by", "updated_by"]).contains column)) = true then
              ((Except.error ServiceError.badRequest :
                Except ServiceError (List PyDict)), cache)
            else
              ((Except.ok (((sortByScoreDesc (searchMatches fuzz column value.trim
                  threshold ((getColl dst (get_or_create_collection_config
                    collection_name schema.fields client_id cache).1.collName).filter
                    (fun d => pyGet d "client_id" == some (Value.vStr
                      client_id))))).take top_n).map
                  (fun m => serialize_document m.1))),
                (get_or_create_collection_config collection_name schema.fields
                  client_id cache).2))).1
          rw [if_neg hcol]
        cases h2
        constructor
        · rw [List.length_map]
          exact le_trans (List.length_take_le _ _) (le_refl _)
        · refine ⟨(sortByScoreDesc (searchMatches fuzz column value.trim threshold
            ((getColl dst (get_or_create_collection_config collection_name
              schema.fields client_id cache).1.collName).filter
              (fun d => pyGet d "client_id" == some (Value.vStr
                client_id))))).take top_n, rfl, ?_, ?_⟩
          · exact List.Pairwise.sublist (List.take_sublist _ _)
              (sorted_sortByScoreDesc _)
          · intro m hm
            have hm1 := List.take_subset _ _ hm
            have hm2 := (mem_sortByScoreDesc m _).mp hm1
            have hm3 := mem_searchMatches fuzz column value.trim threshold _ m hm2
            rcases hm3 with ⟨_, hth, dv, hdv, htr, hsc⟩
            exact ⟨hth, dv, hdv, htr, hsc⟩

/-- Concrete instantiation of the C8 theorem: with a constant similarity of
100 and threshold 70, a single matching document is returned, the output
has at most top_n = 3 entries and every score meets the threshold. -/
theorem C8_search_ranking_witness :
    ∃ out : List PyDict,
      (DocumentService.search (fun _ _ => 100) "t1" "inv" "name" "abc"
        70 3
        { schemas := [{ id := 0, client_id := "t1", schema_name := "inv",
                        version := 1, is_active := true,
                        fields := [{ name := "name", type := "string" }] }],
          nextId := 1, clock := 0 }
        []
        { colls := [("inv", [[("_id", Value.vObjectId 0),
            ("client_id", Value.vStr "t1"),
            ("name", Value.vStr "abcd")]])],
          nextOid := 1, clock := 0 }).1 = .ok out ∧
      out.length ≤ 3 := by
  refine ⟨_, rfl, ?_⟩
  exact (C8_search_ranking (fun _ _ => 100) "t1" "inv" "name" "abc" 70 3
    { schemas := [{ id := 0, client_id := "t1", schema_name := "inv",
                    version := 1, is_active := true,
                    fields := [{ name := "name", type := "string" }] }],
      nextId := 1, clock := 0 }
    []
    { colls := [("inv", [[("_id", Value.vObjectId 0),
        ("client_id", Value.vStr "t1"),
        ("name", Value.vStr "abcd")]])],
      nextOid := 1, clock := 0 } _ rfl).1

end SearchRanking

section IndexReconcile

/-- Character-list prefix test, used to express the Python substring
operator `in` on strings. -/
def listIsPre : List Char → List Char → Bool
  | [], _ => true
  | _ :: _, [] => false
  | c :: cs, d :: ds => c == d && listIsPre cs ds

/-- Character-list substring test. -/
def listHasSub (pat : List Char) : List Char → Bool
  | [] => pat.isEmpty
  | c :: cs => listIsPre pat (c :: cs) || listHasSub pat cs

/-- Python `pat in s` on strings: substring containment. -/
def hasSub (pat s : String) : Bool :=
  listHasSub pat.data s.data

/-- An index as listed by the collection: its name and whether it is unique
(`index_info.get("name")`, `index_info.get("unique", False)`). -/
structure IndexInfo where
  name : String
  unique : Bool
deriving DecidableEq

/-- Whether the collection already has an index with the given name; a
`create_index` call for an existing name either no-ops (same options) or
raises and is caught by the `except` block, leaving the index set
unchanged either way. -/
def hasIndex (cur : List IndexInfo) (n : String) : Bool :=
  cur.any (fun i => i.name == n)

/-- The `required_unique_indexes` set accumulated by the create loop: one
name `f"{field_name}_1_client_id_1"` per field marked unique. -/
def requiredNames (fields : List SchemaField) : List String :=
  (fields.filter (fun f => f.unique)).map (fun f => f.name ++ "_1_client_id_1")

/-- The create loop of `create_indexes_for_schema`: for every field with
`unique`, record the index name as required and create the unique compound
index under that name (no change if the name already exists). -/
def create_indexes_phase : List SchemaField → List IndexInfo → List String →
    List IndexInfo × List String
  | [], cur, req => (cur, req)
  | f :: fs, cur, req =>
    if f.unique then
      let index_name := f.name ++ "_1_client_id_1"
      let cur2 := if hasIndex cur index_name then cur
        else cur ++ [{ name := index_name, unique := true }]
      create_indexes_phase fs cur2 (req ++ [index_name])
    else
      create_indexes_phase fs cur req

/-- The drop condition of the second loop: not the default `_id_` index,
unique, name containing the substring `_1_client_id_1`, and not in the
required set. -/
def dropCond (req : List String) (info : IndexInfo) : Bool :=
  !(info.name == "_id_") &&
    (info.unique && hasSub "_1_client_id_1" info.name && !(req.contains info.name))

/-- The drop loop: iterates the pre-create snapshot of `existing_indexes`
and drops (from the current index set) every index meeting the drop
condition. -/
def drop_obsolete : List IndexInfo → List String → List IndexInfo → List IndexInfo
  | [], _, cur => cur
  | info :: snap, req, cur =>
    if dropCond req info then
      drop_obsolete snap req (cur.filter (fun i => !(i.name == info.name)))
    else
      drop_obsolete snap req cur

/-- `create_indexes_for_schema(collection, fields)`: snapshot the existing
indexes, run the create loop, then drop obsolete pattern-named unique
indexes based on the snapshot. -/
def create_indexes_for_schema (fields : List SchemaField) (cur : List IndexInfo) :
    List IndexInfo :=
  let existing_indexes := cur
  let p := create_indexes_phase fields cur []
  drop_obsolete existing_indexes p.2 p.1

theorem create_indexes_eq (fields : List SchemaField) (cur : List IndexInfo) :
    create_indexes_for_schema fields cur =
      drop_obsolete cur (create_indexes_phase fields cur []).2
        (create_indexes_phase fields cur []).1 := rfl

theorem listIsPre_append (l r : List Char) : listIsPre l (l ++ r) = true := by
  induction l with
  | nil => rfl
  | cons c cs ih => simp [listIsPre, ih]

theorem listHasSub_append (xs pat : List Char) : listHasSub pat (xs ++ pat) = true := by
  induction xs with
  | nil =>
      cases pat with
      | nil => rfl
      | cons c cs =>
          show (listIsPre (c :: cs) (c :: cs) || listHasSub (c :: cs) cs) = true
          have h := listIsPre_append (c :: cs) []
          rw [List.append_nil] at h
          rw [h]
          rfl
  | cons x xs ih =>
      show (listIsPre pat (x :: (xs ++ pat)) || listHasSub pat (xs ++ pat)) = true
      rw [ih]
      simp

theorem hasSub_append (n pat : String) : hasSub pat (n ++ pat) = true := by
  cases n with
  | mk nd =>
      cases pat with
      | mk pd => exact listHasSub_append nd pd

theorem pat_ne_primary (f : String) : ("_id_" : String) ≠ f ++ "_1_client_id_1" := by
  intro h
  have hl := congrArg String.length h
  have h4 : ("_id_" : String).length = 4 := rfl
  have h14 : ("_1_client_id_1" : String).length = 14 := rfl
  rw [String.length_append, h4, h14] at hl
  omega

theorem requiredNames_cons (f : SchemaField) (fs : List SchemaField) :
    requiredNames (f :: fs) = if f.unique then
      (f.name ++ "_1_client_id_1") :: requiredNames fs else requiredNames fs := by
  cases hu : f.unique with
  | false => simp [requiredNames, List.filter_cons, hu]
  | true => simp [requiredNames, List.filter_cons, hu]

theorem mem_hasIndex (cur : List IndexInfo) (n : String) :
    hasIndex cur n = true ↔ ∃ i ∈ cur, i.name = n := by
  simp [hasIndex]

theorem mem_phase_of_mem (fields : List SchemaField) :
    ∀ cur req i, i ∈ cur → i ∈ (create_indexes_phase fields cur req).1 := by
  induction fields with
  | nil => intro cur req i hi; exact hi
  | cons f fs ih =>
      intro cur req i hi
      by_cases hu : f.unique = true
      · rw [create_indexes_phase, if_pos hu]
        show i ∈ (create_indexes_phase fs
          (if hasIndex cur (f.name ++ "_1_client_id_1") = true then cur
            else cur ++ [{ name := f.name ++ "_1_client_id_1", unique := true }])
          (req ++ [f.name ++ "_1_client_id_1"])).1
        by_cases hh : hasIndex cur (f.name ++ "_1_client_id_1") = true
        · rw [if_pos hh]
          exact ih _ _ _ hi
        · rw [if_neg hh]
          exact ih _ _ _ (List.mem_append_left _ hi)
      · rw [create_indexes_phase, if_neg hu]
        exact ih _ _ _ hi

theorem phase_snd (fields : List SchemaField) :
    ∀ cur req, (create_indexes_phase fields cur req).2 = req ++ requiredNames fields := by
  induction fields with
  | nil => intro cur req; simp [create_indexes_phase, requiredNames]
  | cons f fs ih =>
      intro cur req
      by_cases hu : f.unique = true
      · rw [create_indexes_phase, if_pos hu]
        show (create_indexes_phase fs
          (if hasIndex cur (f.name ++ "_1_client_id_1") = true then cur
            else cur ++ [{ name := f.name ++ "_1_client_id_1", unique := true }])
          (req ++ [f.name ++ "_1_client_id_1"])).2 = _
        rw [ih, requiredNames_cons, if_pos hu]
        simp
      · rw [create_indexes_phase, if_neg hu, ih, requiredNames_cons, if_neg hu]

theorem mem_phase (fields : List SchemaField) :
    ∀ cur req i, i ∈ (create_indexes_phase fields cur req).1 →
      i ∈ cur ∨ (i.unique = true ∧ i.name ∈ requiredNames fields) := by
  induction fields with
  | nil => intro cur req i hi; exact Or.inl hi
  | cons f fs ih =>
      intro cur req i hi
      by_cases hu : f.unique = true
      · rw [create_indexes_phase, if_pos hu] at hi
        have hi2 : i ∈ (create_indexes_phase fs
            (if hasIndex cur (f.name ++ "_1_client_id_1") = true then cur
              else cur ++ [{ name := f.name ++ "_1_client_id_1", unique := true }])
            (req ++ [f.name ++ "_1_client_id_1"])).1 := hi
        rcases ih _ _ _ hi2 with hin | hnew
        · by_cases hh : hasIndex cur (f.name ++ "_1_client_id_1") = true
          · rw [if_pos hh] at hin
            exact Or.inl hin
          · rw [if_neg hh] at hin
            rcases List.mem_append.mp hin with h1 | h2
            · exact Or.inl h1
            · have h3 : i = { name := f.name ++ "_1_client_id_1", unique := true } :=
                List.mem_singleton.mp h2
              subst h3
              refine Or.inr ⟨rfl, ?_⟩
              rw [requiredNames_cons, if_pos hu]
              exact List.mem_cons_self _ _
        · refine Or.inr ⟨hnew.1, ?_⟩
          rw [requiredNames_cons, if_pos hu]
          exact List.mem_cons_of_mem _ hnew.2
      · rw [create_indexes_phase, if_neg hu] at hi
        rcases ih _ _ _ hi with h1 | hnew
        · exact Or.inl h1
        · refine Or.inr ⟨hnew.1, ?_⟩
          rw [requiredNames_cons, if_neg hu]
          exact hnew.2

theorem phase_required (fields : List SchemaField) :
    ∀ cur req n, n ∈ requiredNames fields →
      ∃ i ∈ (create_indexes_phase fields cur req).1,
        i.name = n ∧ (i ∈ cur ∨ i.unique = true) := by
  induction fields with
  | nil =>
      intro cur req n hn
      simp [requiredNames] at hn
  | cons f fs ih =>
      intro cur req n hn
      by_cases hu : f.unique = true
      · rw [requiredNames_cons, if_pos hu] at hn
        rw [create_indexes_phase, if_pos hu]
        show ∃ i ∈ (create_indexes_phase fs
          (if hasIndex cur (f.name ++ "_1_client_id_1") = true then cur
            else cur ++ [{ name := f.name ++ "_1_client_id_1", unique := true }])
          (req ++ [f.name ++ "_1_client_id_1"])).1,
          i.name = n ∧ (i ∈ cur ∨ i.unique = true)
        rcases List.mem_cons.mp hn with rfl | hn2
        · by_cases hh : hasIndex cur (f.name ++ "_1_client_id_1") = true
          · rcases (mem_hasIndex _ _).mp hh with ⟨i, hi, hiname⟩
            refine ⟨i, ?_, hiname, Or.inl hi⟩
            rw [if_pos hh]
            exact mem_phase_of_mem _ _ _ _ hi
          · refine ⟨{ name := f.name ++ "_1_client_id_1", unique := true }, ?_, rfl,
              Or.inr rfl⟩
            rw [if_neg hh]
            exact mem_phase_of_mem _ _ _ _
              (List.mem_append_right _ (List.mem_singleton.mpr rfl))
        · rcases ih _ (req ++ [f.name ++ "_1_client_id_1"]) n hn2 with
            ⟨i, hi, hiname, hcase⟩
          refine ⟨i, hi, hiname, ?_⟩
          rcases hcase with hic | hiq
          · by_cases hh : hasIndex cur (f.name ++ "_1_client_id_1") = true
            · rw [if_pos hh] at hic
              exact Or.inl hic
            · rw [if_neg hh] at hic
              rcases List.mem_append.mp hic with h1 | h2
              · exact Or.inl h1
              · have h3 : i = { name := f.name ++ "_1_client_id_1", unique := true } :=
                  List.mem_singleton.mp h2
                subst h3
                exact Or.inr rfl
          · exact Or.inr hiq
      · rw [requiredNames_cons, if_neg hu] at hn
        rw [create_indexes_phase, if_neg hu]
        exact ih _ _ n hn

theorem phase_noop (fields : List SchemaField) :
    ∀ cur req, (∀ n ∈ requiredNames fields, hasIndex cur n = true) →
      (create_indexes_phase fields cur req).1 = cur := by
  induction fields with
  | nil => intro cur req h; rfl
  | cons f fs ih =>
      intro cur req h
      by_cases hu : f.unique = true
      · have hh : hasIndex cur (f.name ++ "_1_client_id_1") = true := by
          apply h
          rw [requiredNames_cons, if_pos hu]
          exact List.mem_cons_self _ _
        rw [create_indexes_phase, if_pos hu]
        show (create_indexes_phase fs
          (if hasIndex cur (f.name ++ "_1_client_id_1") = true then cur
            else cur ++ [{ name := f.name ++ "_1_client_id_1", unique := true }])
          (req ++ [f.name ++ "_1_client_id_1"])).1 = cur
        rw [if_pos hh]
        apply ih
        intro n hn
        apply h
        rw [requiredNames_cons, if_pos hu]
        exact List.mem_cons_of_mem _ hn
      · rw [create_indexes_phase, if_neg hu]
        apply ih
        intro n hn
        apply h
        rw [requiredNames_cons, if_neg hu]
        exact hn

theorem mem_drop_obsolete (snap : List IndexInfo) :
    ∀ req cur i, i ∈ drop_obsolete snap req cur ↔
      i ∈ cur ∧ ∀ s ∈ snap, dropCond req s = true → i.name ≠ s.name := by
  induction snap with
  | nil => intro req cur i; simp [drop_obsolete]
  | cons s snap ih =>
      intro req cur i
      by_cases hc : dropCond req s = true
      · rw [drop_obsolete, if_pos hc, ih]
        constructor
        · rintro ⟨hif, hrest⟩
          rw [List.mem_filter] at hif
          rcases hif with ⟨hic, hfil⟩
          refine ⟨hic, ?_⟩
          intro t ht hdt
          rcases List.mem_cons.mp ht with rfl | ht2
          · intro he
            rw [he] at hfil
            simp at hfil
          · exact hrest t ht2 hdt
        · rintro ⟨hic, hall⟩
          refine ⟨?_, fun t ht hdt => hall t (List.mem_cons_of_mem _ ht) hdt⟩
          rw [List.mem_filter]
          refine ⟨hic, ?_⟩
          have hne := hall s (List.mem_cons_self _ _) hc
          simpa using hne
      · rw [drop_obsolete, if_neg hc, ih]
        constructor
        · rintro ⟨hic, hrest⟩
          refine ⟨hic, ?_⟩
          intro t ht hdt
          rcases List.mem_cons.mp ht with rfl | ht2
          · exact absurd hdt hc
          · exact hrest t ht2 hdt
        · rintro ⟨hic, hall⟩
          exact ⟨hic, fun t ht hdt => hall t (List.mem_cons_of_mem _ ht) hdt⟩

theorem drop_obsolete_noop (snap : List IndexInfo) :
    ∀ req cur, (∀ s ∈ snap, dropCond req s = false) →
      drop_obsolete snap req cur = cur := by
  induction snap with
  | nil => intro req cur h; rfl
  | cons s snap ih =>
      intro req cur h
      have hs := h s (List.mem_cons_self _ _)
      rw [drop_obsolete, if_neg (by rw [hs]; exact Bool.false_ne_true)]
      exact ih req cur (fun t ht => h t (List.mem_cons_of_mem _ ht))

theorem dropCond_spec (req : List String) (s : IndexInfo) (h : dropCond req s = true) :
    s.name ≠ "_id_" ∧ s.unique = true ∧
      hasSub "_1_client_id_1" s.name = true ∧ s.name ∉ req := by
  simp [dropCond] at h
  exact ⟨h.1, h.2.1.1, h.2.1.2, h.2.2⟩

theorem dropCond_true (req : List String) (s : IndexInfo) (h1 : s.name ≠ "_id_")
    (h2 : s.unique = true) (h3 : hasSub "_1_client_id_1" s.name = true)
    (h4 : s.name ∉ req) : dropCond req s = true := by
  simp [dropCond, h1, h2, h3, h4]

theorem reconcile_forward (fields : List SchemaField) (cur : List IndexInfo)
    (i : IndexInfo) (hi : i ∈ create_indexes_for_schema fields cur)
    (hq : i.unique = true) (f0 : String) (hp : i.name = f0 ++ "_1_client_id_1") :
    i.name ∈ requiredNames fields := by
  by_contra hnot
  rw [create_indexes_eq, mem_drop_obsolete] at hi
  rcases hi with ⟨hpm, hsurv⟩
  rcases mem_phase fields cur [] i hpm with hc | hnew
  · have hdc : dropCond (create_indexes_phase fields cur []).2 i = true := by
      rw [phase_snd, List.nil_append]
      apply dropCond_true
      · intro he
        rw [hp] at he
        exact pat_ne_primary f0 he.symm
      · exact hq
      · rw [hp]
        exact hasSub_append f0 _
      · exact hnot
    exact hsurv i hc hdc rfl
  · exact hnot hnew.2

theorem reconcile_hasRequired (fields : List SchemaField) (cur : List IndexInfo)
    (n : String) (hn : n ∈ requiredNames fields) :
    ∃ i ∈ create_indexes_for_schema fields cur,
      i.name = n ∧ (i ∈ cur ∨ i.unique = true) := by
  rcases phase_required fields cur [] n hn with ⟨i, hi, hiname, hcase⟩
  refine ⟨i, ?_, hiname, hcase⟩
  rw [create_indexes_eq, mem_drop_obsolete]
  refine ⟨hi, ?_⟩
  intro s hs hds
  rcases dropCond_spec _ _ hds with ⟨_, _, _, hnotin⟩
  rw [phase_snd, List.nil_append] at hnotin
  intro he
  apply hnotin
  rw [← he, hiname]
  exact hn

theorem reconcile_no_dropCond (fields : List SchemaField) (cur : List IndexInfo)
    (s : IndexInfo) (hs : s ∈ create_indexes_for_schema fields cur) :
    dropCond (requiredNames fields) s = false := by
  cases hd : dropCond (requiredNames fields) s with
  | false => rfl
  | true =>
      exfalso
      rcases dropCond_spec _ _ hd with ⟨hid, hq2, hsub, hnotin⟩
      rw [create_indexes_eq, mem_drop_obsolete] at hs
      rcases hs with ⟨hp, hsurv⟩
      rcases mem_phase fields cur [] s hp with hc | hnew
      · have hdc : dropCond (create_indexes_phase fields cur []).2 s = true := by
          rw [phase_snd, List.nil_append]
          exact hd
        exact hsurv s hc hdc rfl
      · exact hnotin hnew.2

/-- C9: index reconciliation — assuming every pre-existing index whose name
is one of the required pattern names is unique (the residue of every
individual create succeeding), after `create_indexes_for_schema` the unique
indexes whose name matches the pattern field_1_client_id_1 are exactly
those named by the fields currently marked unique; reconciling a second
time with the same fields changes nothing; after reconciling with field
definitions lacking a unique flag no pattern-named unique index for it
remains; and the primary `_id_` index is never dropped. -/
theorem C9_index_reconciliation (fields fields2 : List SchemaField)
    (cur : List IndexInfo)
    (hreq : ∀ i ∈ cur, i.name ∈ requiredNames fields → i.unique = true) :
    (∀ n, (∃ i ∈ create_indexes_for_schema fields cur,
        i.name = n ∧ i.unique = true ∧ ∃ f, n = f ++ "_1_client_id_1") ↔
      n ∈ requiredNames fields) ∧
    create_indexes_for_schema fields (create_indexes_for_schema fields cur) =
      create_indexes_for_schema fields cur ∧
    (∀ n, n ∉ requiredNames fields2 →
      ¬ ∃ i ∈ create_indexes_for_schema fields2 (create_indexes_for_schema fields cur),
        i.name = n ∧ i.unique = true ∧ ∃ f, n = f ++ "_1_client_id_1") ∧
    (∀ i ∈ cur, i.name = "_id_" → i ∈ create_indexes_for_schema fields cur) := by
  refine ⟨?_, ?_, ?_, ?_⟩
  · intro n
    constructor
    · rintro ⟨i, hi, hname, hq, f0, hp⟩
      rw [← hname]
      exact reconcile_forward fields cur i hi hq f0 (by rw [hname]; exact hp)
    · intro hn
      rcases reconcile_hasRequired fields cur n hn with ⟨i, hi, hiname, hcase⟩
      have hq : i.unique = true := by
        rcases hcase with hic | hiq
        · exact hreq i hic (by rw [hiname]; exact hn)
        · exact hiq
      rcases List.mem_map.mp hn with ⟨f, hf, hfe⟩
      exact ⟨i, hi, hiname, hq, f.name, hfe.symm⟩
  · have hA : ∀ n ∈ requiredNames fields,
        hasIndex (create_indexes_for_schema fields cur) n = true := by
      intro n hn
      rcases reconcile_hasRequired fields cur n hn with ⟨i, hi, hiname, _⟩
      exact (mem_hasIndex _ _).mpr ⟨i, hi, hiname⟩
    rw [create_indexes_eq fields (create_indexes_for_schema fields cur),
      phase_noop fields (create_indexes_for_schema fields cur) [] hA,
      phase_snd fields (create_indexes_for_schema fields cur) [], List.nil_append]
    exact drop_obsolete_noop _ _ _ (fun s hs => reconcile_no_dropCond fields cur s hs)
  · rintro n hn2 ⟨i, hi, hname, hq, f0, hp⟩
    apply hn2
    rw [← hname]
    exact reconcile_forward fields2 _ i hi hq f0 (by rw [hname]; exact hp)
  · intro i hic hid
    rw [create_indexes_eq, mem_drop_obsolete]
    refine ⟨mem_phase_of_mem fields cur [] i hic, ?_⟩
    intro s hs hds
    rcases dropCond_spec _ _ hds with ⟨hsid, _, _, _⟩
    intro he
    apply hsid
    rw [← he, hid]

/-- Concrete instantiation of the C9 theorem: one field (sku) marked
unique; the reconciled index set contains the unique index
sku_1_client_id_1, and the primary `_id_` index survives even though a
stale unique index old_1_client_id_1 gets dropped. -/
theorem C9_index_reconciliation_witness :
    (∃ i ∈ create_indexes_for_schema
        [{ name := "sku", type := "string", unique := true }]
        [{ name := "_id_", unique := false },
         { name := "old_1_client_id_1", unique := true }],
      i.name = "sku_1_client_id_1" ∧ i.unique = true ∧
        ∃ f, "sku_1_client_id_1" = f ++ "_1_client_id_1") ∧
    ({ name := "_id_", unique := false } : IndexInfo) ∈ create_indexes_for_schema
        [{ name := "sku", type := "string", unique := true }]
        [{ name := "_id_", unique := false },
         { name := "old_1_client_id_1", unique := true }] := by
  constructor
  · exact ((C9_index_reconciliation
      [{ name := "sku", type := "string", unique := true }]
      [{ name := "sku", type := "string", unique := true }]
      [{ name := "_id_", unique := false },
       { name := "old_1_client_id_1", unique := true }]
      (by decide)).1 "sku_1_client_id_1").mpr (by decide)
  · exact (C9_index_reconciliation
      [{ name := "sku", type := "string", unique := true }]
      [{ name := "sku", type := "string", unique := true }]
      [{ name := "_id_", unique := false },
       { name := "old_1_client_id_1", unique := true }]
      (by decide)).2.2.2 { name := "_id_", unique := false } (by decide) rfl

end IndexReconcile

end ClientService
